import Mathlib

/-!
Verification of the progress-tracking core of a timely dataflow runtime
(`src/progress/subgraph.rs`, `src/progress/timestamp.rs`).

The Rust source is shallowly embedded: `Summary<SOuter, SInner>` becomes an
inductive type, the trait operations (`results_in`, `followed_by`,
`partial_cmp`) become functions parameterised by an algebra record `Alg`
holding the component operations, Rust `Vec`s become `List`s, and the
stateful `Subgraph` methods become pure state-passing functions.

`Antichain`, `MutableAntichain` and `CountMap` are used by `subgraph.rs` but
their defining modules (`progress/frontier.rs`, `progress/count_map.rs`) are
not part of the sources under verification; those are modelled from the
specification document, as marked in their doc comments.
-/

set_option autoImplicit false

namespace Timely

/-- The nested path summary type from `subgraph.rs`:
`enum Summary<S, T> { Local(T), Outer(S, T) }`. -/
inductive Summary (S T : Type) where
  | Local (t : T)
  | Outer (s : S) (t : T)
  deriving DecidableEq, Repr

/-- Algebra of component operations for a nested scope, packaging the
`PathSummary` and `PartialOrd` trait methods of the generic parameters
`TOuter`, `TInner`, `SOuter`, `SInner` of `Subgraph`.  `tiDefault` is
`Default::default()` for the inner timestamp. -/
structure Alg (TO TI SO SI : Type) where
  tiDefault : TI
  siDefault : SI
  soRi : SO → TO → TO
  siRi : SI → TI → TI
  soFb : SO → SO → SO
  siFb : SI → SI → SI
  toCmp : TO → TO → Option Ordering
  tiCmp : TI → TI → Option Ordering
  soCmp : SO → SO → Option Ordering
  siCmp : SI → SI → Option Ordering

/-- `impl PartialOrd for Summary` from `subgraph.rs` lines 53-78:
`Local` compares to `Local` by the inner component, `Local` is `Less` than
any `Outer`, `Outer` compares to `Outer` by the inner component when the
outer components are equal and by the outer component otherwise, and
`Outer` is `Greater` than any `Local`. -/
def Summary.pcmp {S T : Type} [DecidableEq S]
    (sCmp : S → S → Option Ordering) (tCmp : T → T → Option Ordering) :
    Summary S T → Summary S T → Option Ordering
  | .Local i, .Local j => tCmp i j
  | .Local _, .Outer _ _ => some .lt
  | .Outer s i, .Outer s2 j => if s = s2 then tCmp i j else sCmp s s2
  | .Outer _ _, .Local _ => some .gt

/-- `Summary::results_in` from `subgraph.rs` lines 89-98:
`Local(iters)` keeps the outer coordinate and applies `iters` to the inner
coordinate; `Outer(summary, iters)` applies `summary` to the outer
coordinate and applies `iters` to the default inner timestamp. -/
def Summary.resultsIn {TO TI SO SI : Type} (A : Alg TO TI SO SI) :
    Summary SO SI → TO × TI → TO × TI
  | .Local i, (o, n) => (o, A.siRi i n)
  | .Outer s i, (o, _) => (A.soRi s o, A.siRi i A.tiDefault)

/-- `Summary::followed_by` from `subgraph.rs` lines 99-120. -/
def Summary.followedBy {TO TI SO SI : Type} (A : Alg TO TI SO SI) :
    Summary SO SI → Summary SO SI → Summary SO SI
  | .Local i, .Local j => .Local (A.siFb i j)
  | .Local _, .Outer s j => .Outer s j
  | .Outer s i, .Local j => .Outer s (A.siFb i j)
  | .Outer s _, .Outer s2 j => .Outer (A.soFb s s2) j

/-- The derived lexicographic `PartialOrd` on the product timestamp
`(TOuter, TInner)` (`impl Timestamp for (TOuter, TInner)` at
`subgraph.rs` line 39 relies on Rust's derived tuple ordering): compare
the first coordinates, and on equality compare the second. -/
def pairCmp {TO TI SO SI : Type} (A : Alg TO TI SO SI) :
    TO × TI → TO × TI → Option Ordering
  | (o, n), (o2, n2) =>
    match A.toCmp o o2 with
    | some .eq => A.tiCmp n n2
    | r => r

/-- `x <= y` for a Rust `partial_cmp` result: `Some(Less)` or `Some(Equal)`. -/
def cmpLeB : Option Ordering → Bool
  | some .lt => true
  | some .eq => true
  | _ => false

/-- `<=` on product timestamps. -/
def pairLeB {TO TI SO SI : Type} (A : Alg TO TI SO SI) (t t2 : TO × TI) : Bool :=
  cmpLeB (pairCmp A t t2)

/-- `<=` on nested summaries, from the implemented `partial_cmp`. -/
def summaryLeB {TO TI SO SI : Type} [DecidableEq SO] (A : Alg TO TI SO SI)
    (a b : Summary SO SI) : Bool :=
  cmpLeB (Summary.pcmp A.soCmp A.siCmp a b)

/-- Total-order comparison on `Nat`, modelling `uint`'s `PartialOrd`
(`impl Timestamp for uint` in `timestamp.rs`). -/
def natCmp (a b : Nat) : Option Ordering :=
  some (if a < b then .lt else if a = b then .eq else .gt)

/-- Concrete instantiation with `TOuter = TInner = uint` timestamps and
additive `uint` path summaries (`results_in(t) = t + s`,
`followed_by` adds), the standard instantiation for loop counters. -/
def natAlg : Alg Nat Nat Nat Nat :=
  { tiDefault := 0
    siDefault := 0
    soRi := fun s t => t + s
    siRi := fun s t => t + s
    soFb := fun a b => a + b
    siFb := fun a b => a + b
    toCmp := natCmp
    tiCmp := natCmp
    soCmp := natCmp
    siCmp := natCmp }

/-- Strict `<` on product timestamps (`partial_cmp = Some(Less)`). -/
def pairLtB {TO TI SO SI : Type} (A : Alg TO TI SO SI) (t t2 : TO × TI) : Bool :=
  pairCmp A t t2 = some Ordering.lt

/-- Rust `Vec` indexing in total form: the `i`-th element, or the default
`d` out of range. -/
def nth {α : Type} (d : α) : List α → Nat → α
  | [], _ => d
  | a :: _, 0 => a
  | _ :: r, n + 1 => nth d r n

/-- Replace the `i`-th element; out of range leaves the list unchanged. -/
def setNth {α : Type} : List α → Nat → α → List α
  | [], _, _ => []
  | _ :: r, 0, b => b :: r
  | a :: r, n + 1, b => a :: setNth r n b

/-- `[k, k+1, ..., k+n-1]`, modelling Rust's `range(k, k+n)` iteration. -/
def idxFrom : Nat → Nat → List Nat
  | _, 0 => []
  | k, n + 1 => k :: idxFrom (k + 1) n

/-- `[0, 1, ..., n-1]`, modelling Rust's `range(0, n)` iteration. -/
def idx (n : Nat) : List Nat := idxFrom 0 n

/-- Grow a list with copies of `d` until it has length at least `n`,
modelling `while v.len() < n { v.push(default) }`. -/
def growTo {α : Type} (l : List α) (n : Nat) (d : α) : List α :=
  l ++ List.replicate (n - l.length) d

/-- Boolean membership in a list. -/
def elemB {T : Type} [DecidableEq T] (l : List T) (t : T) : Bool :=
  l.any (fun u => decide (u = t))

/-- Modelled from the spec: `CountMap::update` (`progress/count_map.rs` is
not among the verified sources).  A coalescing list of `(t, delta)` pairs:
`update` adds the delta to the entry with an equal key, dropping the entry
when its count reaches zero, and appends a fresh entry otherwise. -/
def cmUpdate {T : Type} [DecidableEq T] : List (T × Int) → T → Int → List (T × Int)
  | [], t, v => if v = 0 then [] else [(t, v)]
  | (u, c) :: rest, t, v =>
    if u = t then
      if c + v = 0 then rest else (u, c + v) :: rest
    else (u, c) :: cmUpdate rest t v

/-- Apply a batch of `(t, delta)` updates to a count map, in order. -/
def cmUpdates {T : Type} [DecidableEq T] (m : List (T × Int)) (l : List (T × Int)) :
    List (T × Int) :=
  l.foldl (fun acc p => cmUpdate acc p.1 p.2) m

/-- Net count that a delta list assigns to a key. -/
def cmCount {T : Type} [DecidableEq T] : List (T × Int) → T → Int
  | [], _ => 0
  | (u, c) :: rest, t => (if u = t then c else 0) + cmCount rest t

/-- Entrywise negation of a delta list (the `-D` of claim C4). -/
def negCM {T : Type} : List (T × Int) → List (T × Int) :=
  List.map (fun p => (p.1, -p.2))

/-- Clear every bucket of a one-level bucket vector (`map.clear()` in a
loop), keeping the shape. -/
def clear1 {TS : Type} (l : List (List (TS × Int))) : List (List (TS × Int)) :=
  l.map (fun _ => [])

/-- Clear every bucket of a two-level bucket vector, keeping the shape. -/
def clear2 {TS : Type} (l : List (List (List (TS × Int)))) :
    List (List (List (TS × Int))) :=
  l.map (fun v => v.map (fun _ => []))

/-- Modelled from the spec: the frontier of a `MutableAntichain`
(`progress/frontier.rs` is not among the verified sources): the minimal
antichain of the held multiset, i.e. the elements with positive
accumulated count not strictly dominated by another element with positive
count.  `ltb` is the strict order. -/
def maFrontier {T : Type} [DecidableEq T] (ltb : T → T → Bool) (m : List (T × Int)) :
    List T :=
  let pos := (m.filter (fun p => decide (0 < p.2))).map Prod.fst
  pos.filter (fun t => !(pos.any (fun u => ltb u t)))

/-- Modelled from the spec: `MutableAntichain::update_iter_and`: apply a
batch of `(t, delta)` updates to the held counts and report `(t, +1)` for
every element that joined the frontier and `(t, -1)` for every element
that left it. -/
def maUpdateIterAnd {T : Type} [DecidableEq T] (ltb : T → T → Bool)
    (m : List (T × Int)) (batch : List (T × Int)) :
    List (T × Int) × List (T × Int) :=
  let m2 := cmUpdates m batch
  let oldF := maFrontier ltb m
  let newF := maFrontier ltb m2
  (m2,
   (newF.filter (fun t => !(elemB oldF t))).map (fun t => (t, (1 : Int))) ++
   (oldF.filter (fun t => !(elemB newF t))).map (fun t => (t, (-1 : Int))))

/-- Modelled from the spec: `MutableAntichain::update_into_cm`: apply the
batch to the held counts and coalesce the frontier changes into a
`CountMap` buffer. -/
def maUpdateIntoCm {T : Type} [DecidableEq T] (ltb : T → T → Bool)
    (m : List (T × Int)) (batch : List (T × Int)) (changes : List (T × Int)) :
    List (T × Int) × List (T × Int) :=
  let r := maUpdateIterAnd ltb m batch
  (r.1, cmUpdates changes r.2)

/-- `enum Source` from `subgraph.rs` lines 17-22. -/
inductive Source where
  | GraphInput (i : Nat)
  | ScopeOutput (scope port : Nat)
  deriving DecidableEq, Repr

/-- `enum Target` from `subgraph.rs` lines 24-29. -/
inductive Target where
  | GraphOutput (o : Nat)
  | ScopeInput (scope port : Nat)
  deriving DecidableEq, Repr

/-- `enum Location` from `subgraph.rs` lines 31-36. -/
inductive Location where
  | SourceLoc (s : Source)
  | TargetLoc (t : Target)
  deriving DecidableEq, Repr

/-- `struct PointstampCounter` from `subgraph.rs` lines 172-181. -/
@[ext]
structure PointstampCounter (TS : Type) where
  source_counts : List (List (List (TS × Int)))
  target_counts : List (List (List (TS × Int)))
  input_counts : List (List (TS × Int))
  target_pushed : List (List (List (TS × Int)))
  output_pushed : List (List (TS × Int))

/-- Update bucket `i` of a one-level bucket vector. -/
def upd1 {TS : Type} [DecidableEq TS] (l : List (List (TS × Int))) (i : Nat)
    (t : TS) (v : Int) : List (List (TS × Int)) :=
  setNth l i (cmUpdate (nth [] l i) t v)

/-- Update bucket `(i, j)` of a two-level bucket vector. -/
def upd2 {TS : Type} [DecidableEq TS] (l : List (List (List (TS × Int)))) (i j : Nat)
    (t : TS) (v : Int) : List (List (List (TS × Int))) :=
  setNth l i (upd1 (nth [] l i) j t v)

/-- `PointstampCounter::update` from `subgraph.rs` lines 186-204.  The
returned flag records whether the `TargetLoc(GraphOutput(_))` arm was
taken: there the code only prints a diagnostic (`println!("lolwut?")`)
and no count is touched. -/
def pcUpdate {TS : Type} [DecidableEq TS] (pc : PointstampCounter TS)
    (location : Location) (time : TS) (value : Int) : PointstampCounter TS × Bool :=
  match location with
  | .SourceLoc (.ScopeOutput scope output) =>
    ({ pc with source_counts := upd2 pc.source_counts scope output time value }, false)
  | .SourceLoc (.GraphInput input) =>
    ({ pc with input_counts := upd1 pc.input_counts input time value }, false)
  | .TargetLoc (.ScopeInput scope input) =>
    ({ pc with target_counts := upd2 pc.target_counts scope input time value }, false)
  | .TargetLoc (.GraphOutput _) => (pc, true)

/-- `PointstampCounter::clear_pushed` from `subgraph.rs` lines 206-210. -/
def pcClearPushed {TS : Type} (pc : PointstampCounter TS) : PointstampCounter TS :=
  { pc with
    target_pushed := clear2 pc.target_pushed
    output_pushed := clear1 pc.output_pushed }

/-- `struct Subgraph` from `subgraph.rs` lines 213-252.  The boxed child
trait objects (`subscopes`) are represented by their observable data:
the `notify_me` flag, the arities, and the declared internal summaries;
`SubscopeState` and `SubscopeBuffers` (lines 123-170) are inlined as
parallel per-child lists.  Fields the modelled methods never read
(`name`, `index`, `default_time`) are omitted. -/
structure Subgraph (TO TI SO SI : Type) where
  inputs : Nat
  outputs : Nat
  default_summary : Summary SO SI
  scope_edges : List (List (List Target))
  input_edges : List (List Target)
  external_summaries : List (List (List SO))
  source_summaries : List (List (List (Target × List (Summary SO SI))))
  target_summaries : List (List (List (Target × List (Summary SO SI))))
  input_summaries : List (List (Target × List (Summary SO SI)))
  external_capability : List (List (TO × Int))
  external_guarantee : List (List (TO × Int))
  subscopeNotify : List Bool
  subscopeInputs : List Nat
  subscopeOutputs : List Nat
  subscopeSummary : List (List (List (List (Summary SO SI))))
  guarantees : List (List (List ((TO × TI) × Int)))
  capabilities : List (List (List ((TO × TI) × Int)))
  outstanding_messages : List (List (List ((TO × TI) × Int)))
  progressBuf : List (List (List ((TO × TI) × Int)))
  consumedBuf : List (List (List ((TO × TI) × Int)))
  producedBuf : List (List (List ((TO × TI) × Int)))
  guarantee_changes : List (List (List ((TO × TI) × Int)))
  pointstamps : PointstampCounter (TO × TI)
  input_messages : List (List ((TO × TI) × Int))

/-- Number of child scopes (`self.subscopes.len()`). -/
def Subgraph.numScopes {TO TI SO SI : Type} (g : Subgraph TO TI SO SI) : Nat :=
  g.subscopeNotify.length

/-- `Subgraph::connect` from `subgraph.rs` lines 943-961: grow the edge
tables with empty rows until the indices are in range, then record the
target.  No validation of any kind is performed. -/
def Subgraph.connect {TO TI SO SI : Type} (g : Subgraph TO TI SO SI)
    (source : Source) (target : Target) : Subgraph TO TI SO SI :=
  match source with
  | .ScopeOutput scope index =>
    let e1 := growTo g.scope_edges (scope + 1) []
    let row := nth [] e1 scope
    let row1 := growTo row (index + 1) []
    let row2 := setNth row1 index (nth [] row1 index ++ [target])
    { g with scope_edges := setNth e1 scope row2 }
  | .GraphInput input =>
    let e1 := growTo g.input_edges (input + 1) []
    { g with input_edges := setNth e1 input (nth [] e1 input ++ [target]) }

/-- Map with the element's index, counting from `k`. -/
def mapIdxFrom {α β : Type} (f : Nat → α → β) : Nat → List α → List β
  | _, [] => []
  | k, a :: r => f k a :: mapIdxFrom f (k + 1) r

/-- Map with the element's index, counting from zero (Rust's
`iter().enumerate()`). -/
def mapIdxL {α β : Type} (f : Nat → α → β) (l : List α) : List β :=
  mapIdxFrom f 0 l

/-- Entrywise negation of a per-input delta-list vector (the `-D` of
claim C4). -/
def negD {T : Type} (D : List (List (T × Int))) : List (List (T × Int)) :=
  D.map negCM

/-- Negate every raw-count and pushed bucket of a counter. -/
def pcNeg {TS : Type} (pc : PointstampCounter TS) : PointstampCounter TS :=
  { source_counts := pc.source_counts.map (fun v => v.map negCM)
    target_counts := pc.target_counts.map (fun v => v.map negCM)
    input_counts := pc.input_counts.map negCM
    target_pushed := pc.target_pushed.map (fun v => v.map negCM)
    output_pushed := pc.output_pushed.map negCM }

/-- Write one propagated update into the pushed buckets, dispatching on
the reached target as in the `dest` match inside
`push_pointstamps_to_targets` (`subgraph.rs` lines 664-750): a
`ScopeInput` goes to `target_pushed`, a `GraphOutput` to
`output_pushed`. -/
def pushedUpdate {TS : Type} [DecidableEq TS]
    (p : List (List (List (TS × Int))) × List (List (TS × Int)))
    (target : Target) (time : TS) (value : Int) :
    List (List (List (TS × Int))) × List (List (TS × Int)) :=
  match target with
  | .ScopeInput scope input => (upd2 p.1 scope input time value, p.2)
  | .GraphOutput output => (p.1, upd1 p.2 output time value)

/-- Propagate every `(time, value)` of one raw-count bucket along one
reachability-table row: for each reachable `(target, antichain)` and each
summary in the antichain, add `(summary.results_in(time), value)` to the
pushed bucket of the target. -/
def propagateCM {TO TI SO SI : Type} [DecidableEq TO] [DecidableEq TI]
    (A : Alg TO TI SO SI)
    (tbl : List (Target × List (Summary SO SI)))
    (cm : List ((TO × TI) × Int))
    (p : List (List (List ((TO × TI) × Int))) × List (List ((TO × TI) × Int))) :
    List (List (List ((TO × TI) × Int))) × List (List ((TO × TI) × Int)) :=
  cm.foldl (fun acc e =>
    tbl.foldl (fun acc2 row =>
      row.2.foldl (fun acc3 s =>
        pushedUpdate acc3 row.1 (Summary.resultsIn A s e.1) e.2) acc2) acc) p

/-- Negate both pushed bucket groups. -/
def negPushed {TS : Type}
    (p : List (List (List (TS × Int))) × List (List (TS × Int))) :
    List (List (List (TS × Int))) × List (List (TS × Int)) :=
  (p.1.map (fun v => v.map negCM), p.2.map negCM)

/-- The per-scope drain loop of `push_pointstamps_to_targets`: for each
child scope, each of its input buckets flows through the matching
`target_summaries` row and each of its output buckets through the
matching `source_summaries` row. -/
def propScopes {TO TI SO SI : Type} [DecidableEq TO] [DecidableEq TI]
    (A : Alg TO TI SO SI) (n : Nat) (sIn sOut : List Nat)
    (tS sS : List (List (List (Target × List (Summary SO SI)))))
    (tc sc : List (List (List ((TO × TI) × Int))))
    (p : List (List (List ((TO × TI) × Int))) × List (List ((TO × TI) × Int))) :
    List (List (List ((TO × TI) × Int))) × List (List ((TO × TI) × Int)) :=
  (idx n).foldl (fun acc scope =>
    let acc2 := (idx (nth 0 sIn scope)).foldl (fun a input =>
      propagateCM A (nth [] (nth [] tS scope) input)
        (nth [] (nth [] tc scope) input) a) acc
    (idx (nth 0 sOut scope)).foldl (fun a output =>
      propagateCM A (nth [] (nth [] sS scope) output)
        (nth [] (nth [] sc scope) output) a) acc2) p

/-- The graph-input drain loop of `push_pointstamps_to_targets`: each
graph-input bucket flows through the matching `input_summaries` row. -/
def propInputs {TO TI SO SI : Type} [DecidableEq TO] [DecidableEq TI]
    (A : Alg TO TI SO SI) (numIn : Nat)
    (iS : List (List (Target × List (Summary SO SI))))
    (ic : List (List ((TO × TI) × Int)))
    (p : List (List (List ((TO × TI) × Int))) × List (List ((TO × TI) × Int))) :
    List (List (List ((TO × TI) × Int))) × List (List ((TO × TI) × Int)) :=
  (idx numIn).foldl (fun a input =>
    propagateCM A (nth [] iS input) (nth [] ic input) a) p

/-- The pushed-bucket pair produced by one full drain of
`push_pointstamps_to_targets`, as a function of the static data it
reads: number of children `n`, child arities, the three reachability
tables, and the number of graph inputs. -/
def pushedAfter {TO TI SO SI : Type} [DecidableEq TO] [DecidableEq TI]
    (A : Alg TO TI SO SI) (n : Nat) (sIn sOut : List Nat)
    (tS sS : List (List (List (Target × List (Summary SO SI)))))
    (iS : List (List (Target × List (Summary SO SI))))
    (numIn : Nat) (pc : PointstampCounter (TO × TI)) :
    List (List (List ((TO × TI) × Int))) × List (List ((TO × TI) × Int)) :=
  propInputs A numIn iS pc.input_counts
    (propScopes A n sIn sOut tS sS pc.target_counts pc.source_counts
      (pc.target_pushed, pc.output_pushed))

/-- The counter transformation of `push_pointstamps_to_targets`: install
the drained pushed buckets and clear every raw-count bucket. -/
def pushPTpc {TO TI SO SI : Type} [DecidableEq TO] [DecidableEq TI]
    (A : Alg TO TI SO SI) (n : Nat) (sIn sOut : List Nat)
    (tS sS : List (List (List (Target × List (Summary SO SI)))))
    (iS : List (List (Target × List (Summary SO SI))))
    (numIn : Nat) (pc : PointstampCounter (TO × TI)) :
    PointstampCounter (TO × TI) :=
  { pc with
    target_pushed := (pushedAfter A n sIn sOut tS sS iS numIn pc).1
    output_pushed := (pushedAfter A n sIn sOut tS sS iS numIn pc).2
    target_counts := clear2 pc.target_counts
    source_counts := clear2 pc.source_counts
    input_counts := clear1 pc.input_counts }

/-- `Subgraph::push_pointstamps_to_targets` (`subgraph.rs` lines 664-750):
drain the per-scope input and output raw-count buckets through
`target_summaries` / `source_summaries`, and the graph-input buckets
through `input_summaries`, into the pushed buckets, clearing every raw
bucket. -/
def Subgraph.pushPointstampsToTargets {TO TI SO SI : Type}
    [DecidableEq TO] [DecidableEq TI]
    (A : Alg TO TI SO SI) (g : Subgraph TO TI SO SI) : Subgraph TO TI SO SI :=
  { g with pointstamps :=
      (pushPTpc A g.numScopes g.subscopeInputs g.subscopeOutputs
        g.target_summaries g.source_summaries g.input_summaries
        g.inputs g.pointstamps) }

/-- The frontier-delta injection loop opening `push_external_progress`
(`subgraph.rs` lines 431-437): each `(time, val)` of input `i` becomes a
pointstamp update at `SourceLoc(GraphInput(i))` with inner coordinate
`Default::default()`. -/
def injectFrontier {TO TI SO SI : Type} [DecidableEq TO] [DecidableEq TI]
    (A : Alg TO TI SO SI) :
    PointstampCounter (TO × TI) → Nat → List (List (TO × Int)) →
    PointstampCounter (TO × TI)
  | pc, _, [] => pc
  | pc, i, progress :: rest =>
    let pc2 := progress.foldl (fun acc tv =>
      (pcUpdate acc (.SourceLoc (.GraphInput i)) (tv.1, A.tiDefault) tv.2).1) pc
    injectFrontier A pc2 (i + 1) rest

/-- The per-child guarantee folding loop shared by
`push_external_progress`, `set_external_summary` and
`pull_internal_progress`: for each input port below the length of the
`guarantee_changes` buffer, fold the pushed bucket into the `guarantees`
antichain via `update_into_cm`, collecting the frontier changes. -/
def updateGuarantees {TO TI SO SI : Type} [DecidableEq TO] [DecidableEq TI]
    (A : Alg TO TI SO SI)
    (gs : List (List ((TO × TI) × Int)))
    (pushed : List (List ((TO × TI) × Int)))
    (chs : List (List ((TO × TI) × Int))) :
    List (List ((TO × TI) × Int)) × List (List ((TO × TI) × Int)) :=
  (mapIdxL (fun p gp =>
      if p < chs.length then
        (maUpdateIntoCm (pairLtB A) gp (nth [] pushed p) (nth [] chs p)).1
      else gp) gs,
   mapIdxL (fun p cp =>
      (maUpdateIntoCm (pairLtB A) (nth [] gs p) (nth [] pushed p) cp).2) chs)

/-- Observable calls made on a child scope (the boxed trait objects in
`subscopes`): what the subgraph hands to `set_external_summary`,
`push_external_progress` and `pull_internal_progress` of child `i`. -/
inductive ChildCall (TO TI SO SI : Type) where
  | setExternalSummary (i : Nat)
      (summaries : List (List (List (Summary SO SI))))
      (changes : List (List ((TO × TI) × Int)))
  | pushExternalProgress (i : Nat) (changes : List (List ((TO × TI) × Int)))
  | pullInternalProgress (i : Nat)

/-- The body of the notify-guarded per-child block of
`push_external_progress` (`subgraph.rs` lines 442-461): `none` for a
child with `notify_me() == false`, otherwise the updated guarantees and
the produced `guarantee_changes`. -/
def guaranteeStep {TO TI SO SI : Type} [DecidableEq TO] [DecidableEq TI]
    (A : Alg TO TI SO SI) (notify : List Bool)
    (gs chs pushed : List (List (List ((TO × TI) × Int)))) (i : Nat) :
    Option (List (List ((TO × TI) × Int)) × List (List ((TO × TI) × Int))) :=
  if nth false notify i then
    some (updateGuarantees A (nth [] gs i) (nth [] pushed i) (nth [] chs i))
  else none

/-- Take the updated guarantees row from a notify-child step, or keep
the row for a skipped child. -/
def stepGuar {α β : Type} : Option (α × β) → α → α
  | some r, _ => r.1
  | none, row => row

/-- The guarantee-change buffer row after a child step: cleared when the
nonempty changes were forwarded to the child, untouched otherwise. -/
def stepChanges {TS : Type} :
    Option (List (List (TS × Int)) × List (List (TS × Int))) →
    List (List (TS × Int)) → List (List (TS × Int))
  | some r, _ => if r.2.any (fun c => !c.isEmpty) then r.2.map (fun _ => []) else r.2
  | none, row => row

/-- `Subgraph::push_external_progress` (`subgraph.rs` lines 428-464):
turn the parent's frontier deltas into pointstamps at the `GraphInput`
locations, propagate, fold each notify-child's pushed buckets into its
`guarantees` producing `guarantee_changes`, forward nonempty change sets
to the child (recorded in the returned call list, with the buffers
cleared afterwards), and clear the pushed buckets. -/
def Subgraph.pushExternalProgress {TO TI SO SI : Type}
    [DecidableEq TO] [DecidableEq TI]
    (A : Alg TO TI SO SI) (g : Subgraph TO TI SO SI)
    (frontier_progress : List (List (TO × Int))) :
    Subgraph TO TI SO SI × List (ChildCall TO TI SO SI) :=
  let pc1 := injectFrontier A g.pointstamps 0 frontier_progress
  let g2 := Subgraph.pushPointstampsToTargets A { g with pointstamps := pc1 }
  let step := guaranteeStep A g2.subscopeNotify g2.guarantees g2.guarantee_changes
    g2.pointstamps.target_pushed
  let g3 := { g2 with
    guarantees := mapIdxL (fun i row => stepGuar (step i) row) g2.guarantees
    guarantee_changes := mapIdxL (fun i row => stepChanges (step i) row)
      g2.guarantee_changes }
  let calls := (idx g2.numScopes).filterMap (fun i =>
    match step i with
    | some r =>
      if r.2.any (fun c => !c.isEmpty) then some (ChildCall.pushExternalProgress i r.2)
      else none
    | none => none)
  ({ g3 with pointstamps := pcClearPushed g3.pointstamps }, calls)

/-- Modelled from the spec §4.1: `Antichain::insert` under the summary
partial order (`progress/frontier.rs` is not among the verified sources):
if some existing element `y <= x`, the set is unchanged and `false` is
returned; otherwise every element `y` with `x <= y` is removed, `x` is
added, and `true` is returned. -/
def acInsert {S : Type} (leb : S → S → Bool) (l : List S) (x : S) : List S × Bool :=
  if l.any (fun y => leb y x) then (l, false)
  else ((l.filter (fun y => !(leb x y))) ++ [x], true)

/-- `try_to_add_summary` (`subgraph.rs` lines 964-978): find the entry
for the target and insert into its antichain, or append a fresh
singleton entry; returns whether anything changed. -/
def try_to_add_summary {S : Type} (leb : S → S → Bool) :
    List (Target × List S) → Target → S → List (Target × List S) × Bool
  | [], target, s => ([(target, [s])], true)
  | (t, ac) :: rest, target, s =>
    if target = t then
      let r := acInsert leb ac s
      ((t, r.1) :: rest, r.2)
    else
      let r := try_to_add_summary leb rest target s
      ((t, ac) :: r.1, r.2)

/-- `Subgraph::target_to_sources` (`subgraph.rs` lines 882-912): a
`GraphOutput(port)` resolves to each graph input via the external
summaries, wrapped as `Outer(summary, Default::default())`; a
`ScopeInput(graph, port)` resolves to the child's outputs via its
declared internal summaries. -/
def Subgraph.target_to_sources {TO TI SO SI : Type} (A : Alg TO TI SO SI)
    (g : Subgraph TO TI SO SI) (target : Target) :
    List (Source × Summary SO SI) :=
  match target with
  | .GraphOutput port =>
    (idx g.inputs).foldl (fun acc input =>
      acc ++ (nth [] (nth [] g.external_summaries port) input).map
        (fun summary => (Source.GraphInput input, Summary.Outer summary A.siDefault))) []
  | .ScopeInput graph port =>
    (idx (nth 0 g.subscopeOutputs graph)).foldl (fun acc i =>
      acc ++ (nth [] (nth [] (nth [] g.subscopeSummary graph) port) i).map
        (fun summary => (Source.ScopeOutput graph i, summary))) []

/-- The notify filter of `set_summaries` (`subgraph.rs` lines 765 and
779): a `ScopeInput` target is kept only when its child wants
notifications. -/
def targetOkB (notify : List Bool) : Target → Bool
  | .ScopeInput t _ => nth false notify t
  | .GraphOutput _ => true

/-- Seeding of one summary row of `set_summaries`: one entry per declared
edge target passing the notify filter, each with the default summary as
singleton antichain. -/
def seedRow {SO SI : Type} (notify : List Bool) (ds : Summary SO SI)
    (edges : List Target) : List (Target × List (Summary SO SI)) :=
  (edges.filter (fun target => targetOkB notify target)).map (fun target => (target, [ds]))

/-- One pass of the worklist saturation over the scope-output edges
(`subgraph.rs` lines 791-822), threading the source table and the
changed flag. -/
def passSources {TO TI SO SI : Type} [DecidableEq TO] [DecidableEq TI]
    [DecidableEq SO] [DecidableEq SI]
    (A : Alg TO TI SO SI) (g : Subgraph TO TI SO SI)
    (σ : List (List (List (Target × List (Summary SO SI)))) × Bool) :
    List (List (List (Target × List (Summary SO SI)))) × Bool :=
  (idx g.numScopes).foldl (fun acc scope =>
    (idx (nth 0 g.subscopeOutputs scope)).foldl (fun acc2 output =>
      (nth [] (nth [] g.scope_edges scope) output).foldl (fun acc3 target =>
        (Subgraph.target_to_sources A g target).foldl (fun acc4 ns =>
          match ns.1 with
          | .ScopeOutput next_scope next_output =>
            (nth [] (nth [] acc4.1 next_scope) next_output).foldl (fun acc5 row =>
              row.2.foldl (fun acc6 summary =>
                let r := try_to_add_summary (summaryLeB A)
                  (nth [] (nth [] acc6.1 scope) output) row.1
                  (Summary.followedBy A ns.2 summary)
                (setNth acc6.1 scope (setNth (nth [] acc6.1 scope) output r.1),
                 acc6.2 || r.2)) acc5) acc4
          | .GraphInput _ => acc4) acc3) acc2) acc) σ

/-- One pass of the worklist saturation over the graph-input edges
(`subgraph.rs` lines 824-852), reading the current source table and
threading the input table and the changed flag. -/
def passInputs {TO TI SO SI : Type} [DecidableEq TO] [DecidableEq TI]
    [DecidableEq SO] [DecidableEq SI]
    (A : Alg TO TI SO SI) (g : Subgraph TO TI SO SI)
    (S : List (List (List (Target × List (Summary SO SI)))))
    (σ : List (List (Target × List (Summary SO SI))) × Bool) :
    List (List (Target × List (Summary SO SI))) × Bool :=
  (idx g.inputs).foldl (fun acc input =>
    (nth [] g.input_edges input).foldl (fun acc2 target =>
      (Subgraph.target_to_sources A g target).foldl (fun acc3 ns =>
        match ns.1 with
        | .ScopeOutput next_scope next_output =>
          (nth [] (nth [] S next_scope) next_output).foldl (fun acc4 row =>
            row.2.foldl (fun acc5 summary =>
              let r := try_to_add_summary (summaryLeB A) (nth [] acc5.1 input) row.1
                (Summary.followedBy A ns.2 summary)
              (setNth acc5.1 input r.1, acc5.2 || r.2)) acc4) acc3
        | .GraphInput _ => acc3) acc2) acc) σ

/-- The `while !done` saturation loop of `set_summaries`, with an
explicit fuel bound (the spec prescribes a bounded-iteration guard). -/
def saturate {TO TI SO SI : Type} [DecidableEq TO] [DecidableEq TI]
    [DecidableEq SO] [DecidableEq SI]
    (A : Alg TO TI SO SI) (g : Subgraph TO TI SO SI) :
    Nat → List (List (List (Target × List (Summary SO SI)))) →
    List (List (Target × List (Summary SO SI))) →
    List (List (List (Target × List (Summary SO SI)))) ×
      List (List (Target × List (Summary SO SI)))
  | 0, S, I => (S, I)
  | fuel + 1, S, I =>
    let r1 := passSources A g (S, false)
    let r2 := passInputs A g r1.1 (I, false)
    if r1.2 || r2.2 then saturate A g fuel r1.1 r2.1 else (r1.1, r2.1)

/-- The final population of `target_summaries` (`subgraph.rs` lines
855-879) from the saturated source table. -/
def buildTargetSummaries {TO TI SO SI : Type} [DecidableEq TO] [DecidableEq TI]
    [DecidableEq SO] [DecidableEq SI]
    (A : Alg TO TI SO SI) (g : Subgraph TO TI SO SI)
    (S : List (List (List (Target × List (Summary SO SI))))) :
    List (List (List (Target × List (Summary SO SI)))) :=
  (idx g.numScopes).map (fun scope =>
    (idx (nth 0 g.subscopeInputs scope)).map (fun input =>
      (Subgraph.target_to_sources A g (.ScopeInput scope input)).foldl (fun acc ns =>
        match ns.1 with
        | .ScopeOutput next_scope next_output =>
          (nth [] (nth [] S next_scope) next_output).foldl (fun acc2 row =>
            row.2.foldl (fun acc3 summary =>
              (try_to_add_summary (summaryLeB A) acc3 row.1
                (Summary.followedBy A ns.2 summary)).1) acc2) acc
        | .GraphInput _ => acc) []))

/-- `Subgraph::set_summaries` (`subgraph.rs` lines 755-880): clear and
reseed the source and input summary rows from the declared edges under
the notify filter, saturate by the worklist loop, then rebuild
`target_summaries` from the saturated source table. -/
def Subgraph.set_summaries {TO TI SO SI : Type} [DecidableEq TO] [DecidableEq TI]
    [DecidableEq SO] [DecidableEq SI]
    (A : Alg TO TI SO SI) (fuel : Nat) (g : Subgraph TO TI SO SI) :
    Subgraph TO TI SO SI :=
  let S0 := (idx g.numScopes).map (fun scope =>
    (idx (nth 0 g.subscopeOutputs scope)).map (fun output =>
      seedRow g.subscopeNotify g.default_summary (nth [] (nth [] g.scope_edges scope) output)))
  let I0 := (idx g.inputs).map (fun input =>
    seedRow g.subscopeNotify g.default_summary (nth [] g.input_edges input))
  let r := saturate A g fuel S0 I0
  { g with
    source_summaries := r.1
    input_summaries := r.2
    target_summaries := buildTargetSummaries A g r.1 }

/-- The `target_pushed` buckets as the per-child loop of
`push_external_progress` sees them: the result of injecting the delta
list `D` and propagating. -/
def pushedForD {TO TI SO SI : Type} [DecidableEq TO] [DecidableEq TI]
    (A : Alg TO TI SO SI) (g : Subgraph TO TI SO SI)
    (D : List (List (TO × Int))) : List (List (List ((TO × TI) × Int))) :=
  (pushedAfter A g.numScopes g.subscopeInputs g.subscopeOutputs
    g.target_summaries g.source_summaries g.input_summaries g.inputs
    (injectFrontier A g.pointstamps 0 D)).1

/-- Every bucket of a one-level bucket vector is empty. -/
abbrev AllNil1 {α : Type} (l : List (List α)) : Prop := ∀ b ∈ l, b = []

/-- Every bucket of a two-level bucket vector is empty. -/
abbrev AllNil2 {α : Type} (l : List (List (List α))) : Prop := ∀ v ∈ l, ∀ b ∈ v, b = []

/-- The keys of a count map are pairwise distinct — the invariant
`CountMap::update` maintains, distinguishing the coalesced
`frontier_progress` buckets from the raw-append `messages_consumed` and
`messages_produced` vectors. -/
abbrev cmKeysNodup {T : Type} (m : List (T × Int)) : Prop :=
  (m.map Prod.fst).Nodup

/-- Strict `<` on the outer timestamp, for the `MutableAntichain`s over
`TOuter` (`external_capability`, `external_guarantee`). -/
def toLtB {TO TI SO SI : Type} [DecidableEq TO] (A : Alg TO TI SO SI) (a b : TO) : Bool :=
  decide (A.toCmp a b = some Ordering.lt)

/-- Apply a message-count batch to `outstanding_messages[sub][subin]` via
`update_iter_and`, turning every frontier change into a pointstamp at
`TargetLoc(ScopeInput(sub, subin))` — the shared pattern of phases 1, 2a
and 2c of `pull_internal_progress`. -/
def omUpdate {TO TI SO SI : Type} [DecidableEq TO] [DecidableEq TI]
    (A : Alg TO TI SO SI) (st : Subgraph TO TI SO SI) (sub subin : Nat)
    (batch : List ((TO × TI) × Int)) : Subgraph TO TI SO SI :=
  let m := nth [] (nth [] st.outstanding_messages sub) subin
  let r := maUpdateIterAnd (pairLtB A) m batch
  { st with
    outstanding_messages := (setNth st.outstanding_messages sub
      (setNth (nth [] st.outstanding_messages sub) subin r.1))
    pointstamps := (r.2.foldl (fun pc e =>
      (pcUpdate pc (.TargetLoc (.ScopeInput sub subin)) e.1 e.2).1) st.pointstamps) }

/-- Apply a capability-delta batch to `capabilities[index][output]` via
`update_iter_and`, turning every frontier change into a pointstamp at
`SourceLoc(ScopeOutput(index, output))` — phase 2b of
`pull_internal_progress`. -/
def capUpdate {TO TI SO SI : Type} [DecidableEq TO] [DecidableEq TI]
    (A : Alg TO TI SO SI) (st : Subgraph TO TI SO SI) (index output : Nat)
    (batch : List ((TO × TI) × Int)) : Subgraph TO TI SO SI :=
  let m := nth [] (nth [] st.capabilities index) output
  let r := maUpdateIterAnd (pairLtB A) m batch
  { st with
    capabilities := (setNth st.capabilities index
      (setNth (nth [] st.capabilities index) output r.1))
    pointstamps := (r.2.foldl (fun pc e =>
      (pcUpdate pc (.SourceLoc (.ScopeOutput index output)) e.1 e.2).1) st.pointstamps) }

/-- One iteration of phase 1 of `pull_internal_progress` (`subgraph.rs`
lines 477-512): if graph input `input`'s mailbox is nonempty, report the
outer coordinate of every entry into `messages_consumed`, forward the
batch to each declared target (`ScopeInput` via `outstanding_messages`,
`GraphOutput` straight into `messages_produced`), and clear the
mailbox. -/
def pullInputStep {TO TI SO SI : Type} [DecidableEq TO] [DecidableEq TI]
    (A : Alg TO TI SO SI)
    (acc : Subgraph TO TI SO SI × List (List (TO × Int)) × List (List (TO × Int)))
    (input : Nat) :
    Subgraph TO TI SO SI × List (List (TO × Int)) × List (List (TO × Int)) :=
  let msgs := nth [] acc.1.input_messages input
  if msgs.length > 0 then
    let mc2 := setNth acc.2.1 input
      (nth [] acc.2.1 input ++ msgs.map (fun p => (p.1.1, p.2)))
    let r := (nth [] acc.1.input_edges input).foldl (fun acc2 target =>
      match target with
      | .ScopeInput sub subin => (omUpdate A acc2.1 sub subin msgs, acc2.2)
      | .GraphOutput go => (acc2.1, setNth acc2.2 go
          (nth [] acc2.2 go ++ msgs.map (fun p => (p.1.1, p.2))))) (acc.1, acc.2.2)
    ({ r.1 with input_messages := (setNth r.1.input_messages input []) }, mc2, r.2)
  else acc

/-- Phase 1 of `pull_internal_progress` (`subgraph.rs` lines 471-513):
the mailbox drain loop over all graph inputs. -/
def pullStep1 {TO TI SO SI : Type} [DecidableEq TO] [DecidableEq TI]
    (A : Alg TO TI SO SI) (g : Subgraph TO TI SO SI)
    (mc mp : List (List (TO × Int))) :
    Subgraph TO TI SO SI × List (List (TO × Int)) × List (List (TO × Int)) :=
  (idx g.inputs).foldl (pullInputStep A) (g, mc, mp)

/-- Phases 2a and 2b of `pull_internal_progress` for one child output
(`subgraph.rs` lines 527-572): a nonempty produced buffer flows along
the declared `scope_edges` targets (`ScopeInput` via
`outstanding_messages`, `GraphOutput` into `messages_produced`) and is
cleared; a nonempty progress buffer flows into `capabilities` and is
cleared. -/
def pullChildOut {TO TI SO SI : Type} [DecidableEq TO] [DecidableEq TI]
    (A : Alg TO TI SO SI) (i : Nat)
    (acc2 : Subgraph TO TI SO SI × List (List (TO × Int))) (output : Nat) :
    Subgraph TO TI SO SI × List (List (TO × Int)) :=
  let pr := nth [] (nth [] acc2.1.producedBuf i) output
  let acc3 :=
    if pr.length > 0 then
      let r2 := (nth [] (nth [] acc2.1.scope_edges i) output).foldl (fun acc4 target =>
        match target with
        | .ScopeInput ts tp => (omUpdate A acc4.1 ts tp pr, acc4.2)
        | .GraphOutput go => (acc4.1, setNth acc4.2 go
            (nth [] acc4.2 go ++ pr.map (fun p => (p.1.1, p.2))))) acc2
      ({ r2.1 with producedBuf := (setNth r2.1.producedBuf i
          (setNth (nth [] r2.1.producedBuf i) output [])) }, r2.2)
    else acc2
  let pg := nth [] (nth [] acc3.1.progressBuf i) output
  if pg.length > 0 then
    let st4 := capUpdate A acc3.1 i output pg
    ({ st4 with progressBuf := (setNth st4.progressBuf i
        (setNth (nth [] st4.progressBuf i) output [])) }, acc3.2)
  else acc3

/-- Phase 2c of `pull_internal_progress` for one child input
(`subgraph.rs` lines 574-588): subtract the consumed counts (negated)
from `outstanding_messages` and clear the buffer. -/
def pullChildIn {TO TI SO SI : Type} [DecidableEq TO] [DecidableEq TI]
    (A : Alg TO TI SO SI) (i : Nat) (st2 : Subgraph TO TI SO SI) (input : Nat) :
    Subgraph TO TI SO SI :=
  let cs := nth [] (nth [] st2.consumedBuf i) input
  if cs.length > 0 then
    let st3 := omUpdate A st2 i input (negCM cs)
    { st3 with consumedBuf := (setNth st3.consumedBuf i
        (setNth (nth [] st3.consumedBuf i) input [])) }
  else st2

/-- Install into the shared buffers of child `i` the contents its
`pull_internal_progress` call leaves behind through the `&mut`
references (`subgraph.rs` lines 521-525). -/
def installBufs {TO TI SO SI : Type} (st : Subgraph TO TI SO SI) (i : Nat)
    (dep : List (List ((TO × TI) × Int)) × List (List ((TO × TI) × Int)) ×
      List (List ((TO × TI) × Int))) : Subgraph TO TI SO SI :=
  { st with
    progressBuf := (setNth st.progressBuf i dep.1)
    consumedBuf := (setNth st.consumedBuf i dep.2.1)
    producedBuf := (setNth st.producedBuf i dep.2.2) }

/-- Phase 2 for one child: install the buffer contents the child's
`pull_internal_progress` leaves behind, then run the per-output
(produced and progress) and per-input (consumed) processing loops. -/
def pullStep2Child {TO TI SO SI : Type} [DecidableEq TO] [DecidableEq TI]
    (A : Alg TO TI SO SI)
    (dep : List (List ((TO × TI) × Int)) × List (List ((TO × TI) × Int)) ×
      List (List ((TO × TI) × Int)))
    (i : Nat) (acc : Subgraph TO TI SO SI × List (List (TO × Int))) :
    Subgraph TO TI SO SI × List (List (TO × Int)) :=
  let st0 := installBufs acc.1 i dep
  let r := (idx (nth 0 st0.subscopeOutputs i)).foldl (pullChildOut A i) (st0, acc.2)
  ((idx (nth 0 r.1.subscopeInputs i)).foldl (pullChildIn A i) r.1, r.2)

/-- Phase 2 of `pull_internal_progress` (`subgraph.rs` lines 516-589):
pull every child in order, recording a `pullInternalProgress` call per
child. -/
def pullStep2 {TO TI SO SI : Type} [DecidableEq TO] [DecidableEq TI]
    (A : Alg TO TI SO SI)
    (deposits : Nat → List (List ((TO × TI) × Int)) × List (List ((TO × TI) × Int)) ×
      List (List ((TO × TI) × Int)))
    (n : Nat) (acc0 : Subgraph TO TI SO SI × List (List (TO × Int))) :
    (Subgraph TO TI SO SI × List (List (TO × Int))) × List (ChildCall TO TI SO SI) :=
  (idx n).foldl (fun acc i =>
    (pullStep2Child A (deposits i) i acc.1, acc.2 ++ [ChildCall.pullInternalProgress i]))
    (acc0, [])

/-- One iteration of phase 4 of `pull_internal_progress` (`subgraph.rs`
lines 620-625): fold output `o`'s pushed bucket (projected to the outer
coordinate) into `external_capability`, coalescing every frontier
change into the `frontier_progress` output via `CountMap::update`. -/
def pullOutStep {TO TI SO SI : Type} [DecidableEq TO] [DecidableEq TI]
    (A : Alg TO TI SO SI)
    (acc : Subgraph TO TI SO SI × List (List (TO × Int))) (o : Nat) :
    Subgraph TO TI SO SI × List (List (TO × Int)) :=
  let updates := (nth [] acc.1.pointstamps.output_pushed o).map (fun p => (p.1.1, p.2))
  let r := maUpdateIterAnd (toLtB A) (nth [] acc.1.external_capability o) updates
  ({ acc.1 with external_capability := (setNth acc.1.external_capability o r.1) },
   setNth acc.2 o (r.2.foldl (fun cm e => cmUpdate cm e.1 e.2) (nth [] acc.2 o)))

/-- Phase 4 of `pull_internal_progress`: the loop over all graph
outputs. -/
def pullStep4 {TO TI SO SI : Type} [DecidableEq TO] [DecidableEq TI]
    (A : Alg TO TI SO SI) (st : Subgraph TO TI SO SI)
    (fp : List (List (TO × Int))) :
    Subgraph TO TI SO SI × List (List (TO × Int)) :=
  (idx st.outputs).foldl (pullOutStep A) (st, fp)

/-- The result of `pull_internal_progress`: the new subgraph state, the
three populated output vectors, and the calls made on the children. -/
structure PullResult (TO TI SO SI : Type) where
  state : Subgraph TO TI SO SI
  frontier_progress : List (List (TO × Int))
  messages_consumed : List (List (TO × Int))
  messages_produced : List (List (TO × Int))
  calls : List (ChildCall TO TI SO SI)

/-- `Subgraph::pull_internal_progress` (`subgraph.rs` lines 467-629):
phase 1 drains the shared graph-input mailboxes, phase 2 pulls every
child in order (`deposits i` being the buffer contents child `i` leaves),
phase 3 propagates and forwards nonempty guarantee changes to the
notify-children, phase 4 reports the output frontier changes upward, and
the pushed buckets are cleared at the end. -/
def Subgraph.pull_internal_progress {TO TI SO SI : Type}
    [DecidableEq TO] [DecidableEq TI]
    (A : Alg TO TI SO SI) (g : Subgraph TO TI SO SI)
    (deposits : Nat → List (List ((TO × TI) × Int)) × List (List ((TO × TI) × Int)) ×
      List (List ((TO × TI) × Int)))
    (fp mc mp : List (List (TO × Int))) : PullResult TO TI SO SI :=
  let r1 := pullStep1 A g mc mp
  let r2 := pullStep2 A deposits g.numScopes (r1.1, r1.2.2)
  let st2 := Subgraph.pushPointstampsToTargets A r2.1.1
  let step := guaranteeStep A st2.subscopeNotify st2.guarantees st2.guarantee_changes
    st2.pointstamps.target_pushed
  let st3 := { st2 with
    guarantees := (mapIdxL (fun i row => stepGuar (step i) row) st2.guarantees)
    guarantee_changes := (mapIdxL (fun i row => stepChanges (step i) row)
      st2.guarantee_changes) }
  let calls3 := (idx st2.numScopes).filterMap (fun i =>
    match step i with
    | some r =>
      if r.2.any (fun c => !c.isEmpty) then some (ChildCall.pushExternalProgress i r.2)
      else none
    | none => none)
  let r4 := pullStep4 A st3 fp
  { state := { r4.1 with pointstamps := pcClearPushed r4.1.pointstamps }
    frontier_progress := r4.2
    messages_consumed := r1.2.1
    messages_produced := r2.1.2
    calls := r2.2 ++ calls3 }

/-- Pointstamp injection of the locally expressed capabilities
(`subgraph.rs` lines 374-383): every element of each child's per-output
capability frontier becomes a `+1` pointstamp at
`SourceLoc(ScopeOutput(scope, output))`. -/
def injectCapabilities {TO TI SO SI : Type} [DecidableEq TO] [DecidableEq TI]
    (A : Alg TO TI SO SI) (g : Subgraph TO TI SO SI)
    (pc : PointstampCounter (TO × TI)) : PointstampCounter (TO × TI) :=
  (idx g.numScopes).foldl (fun pc1 scope =>
    (idx (nth 0 g.subscopeOutputs scope)).foldl (fun pc2 output =>
      (maFrontier (pairLtB A) (nth [] (nth [] g.capabilities scope) output)).foldl
        (fun pc3 time =>
          (pcUpdate pc3 (.SourceLoc (.ScopeOutput scope output)) time 1).1) pc2) pc1) pc

/-- The `outputs × inputs` summary matrix handed to child `i`
(`subgraph.rs` lines 406-417): each `source_summaries[i][output]` entry
whose target is an input of the same child lands at that input's slot
of an initially empty matrix. -/
def childSummaries {TO TI SO SI : Type} (g : Subgraph TO TI SO SI) (i : Nat) :
    List (List (List (Summary SO SI))) :=
  (idx (nth 0 g.subscopeOutputs i)).map (fun output =>
    (nth [] (nth [] g.source_summaries i) output).foldl (fun acc e =>
      match e.1 with
      | Target.ScopeInput ts ti => if ts = i then setNth acc ti e.2 else acc
      | Target.GraphOutput _ => acc)
      (List.replicate (nth 0 g.subscopeInputs i) ([] : List (Summary SO SI))))

/-- The guarantee-change row handed to child `i` by
`set_external_summary`: the freshly folded changes for a notify child,
the buffer as stored for a non-notify child (it is handed over either
way, and cleared afterwards). -/
def handedChanges {TS : Type} :
    Option (List (List (TS × Int)) × List (List (TS × Int))) →
    List (List (TS × Int)) → List (List (TS × Int))
  | some r, _ => r.2
  | none, row => row

/-- The state of the subgraph inside `set_external_summary` after the
parent's summaries are stored, reachability recomputed, the external
frontier and local capabilities injected, and the pointstamps
propagated — i.e. just before the per-child loop of `subgraph.rs`
lines 388-421. -/
def seSumState {TO TI SO SI : Type}
    [DecidableEq TO] [DecidableEq TI] [DecidableEq SO] [DecidableEq SI]
    (A : Alg TO TI SO SI) (fuel : Nat) (g : Subgraph TO TI SO SI)
    (summaries : List (List (List SO))) (frontier : List (List (TO × Int))) :
    Subgraph TO TI SO SI :=
  let g1 := Subgraph.set_summaries A fuel { g with external_summaries := summaries }
  let pc1 := injectFrontier A g1.pointstamps 0 frontier
  let pc2 := injectCapabilities A g1 pc1
  Subgraph.pushPointstampsToTargets A { g1 with pointstamps := pc2 }

/-- `Subgraph::set_external_summary` (`subgraph.rs` lines 357-424):
store the parent's output-to-input summaries, recompute internal
reachability via `set_summaries`, inject the external frontier (paired
with the default inner time) and the locally held capability frontiers
as pointstamps, propagate, then for every child — notify or not — fold
the pushed buckets into its guarantees (notify children only), hand the
child its summary matrix and change row via its own
`set_external_summary`, and finally clear the change buffers and the
pushed buckets. -/
def Subgraph.set_external_summary {TO TI SO SI : Type}
    [DecidableEq TO] [DecidableEq TI] [DecidableEq SO] [DecidableEq SI]
    (A : Alg TO TI SO SI) (fuel : Nat) (g : Subgraph TO TI SO SI)
    (summaries : List (List (List SO))) (frontier : List (List (TO × Int))) :
    Subgraph TO TI SO SI × List (ChildCall TO TI SO SI) :=
  let g1 := Subgraph.set_summaries A fuel { g with external_summaries := summaries }
  let pc1 := injectFrontier A g1.pointstamps 0 frontier
  let pc2 := injectCapabilities A g1 pc1
  let g2 := Subgraph.pushPointstampsToTargets A { g1 with pointstamps := pc2 }
  let step := guaranteeStep A g2.subscopeNotify g2.guarantees g2.guarantee_changes
    g2.pointstamps.target_pushed
  let calls := (idx g2.numScopes).map (fun i =>
    ChildCall.setExternalSummary i (childSummaries g2 i)
      (handedChanges (step i) (nth [] g2.guarantee_changes i)))
  let g3 := { g2 with
    guarantees := (mapIdxL (fun i row => stepGuar (step i) row) g2.guarantees)
    guarantee_changes := (mapIdxL (fun i row =>
      (handedChanges (step i) row).map (fun _ => ([] : List ((TO × TI) × Int))))
      g2.guarantee_changes) }
  ({ g3 with pointstamps := pcClearPushed g3.pointstamps }, calls)

/-- An empty `PointstampCounter` over `uint` product timestamps. -/
def emptyPC : PointstampCounter (Nat × Nat) :=
  { source_counts := [], target_counts := [], input_counts := []
    target_pushed := [], output_pushed := [] }

/-- A freshly constructed `Subgraph` (all tables empty), over `uint`
timestamps and additive `uint` summaries. -/
def emptySubgraph : Subgraph Nat Nat Nat Nat :=
  { inputs := 0, outputs := 0, default_summary := .Local 0
    scope_edges := [], input_edges := [], external_summaries := []
    source_summaries := [], target_summaries := [], input_summaries := []
    external_capability := [], external_guarantee := []
    subscopeNotify := [], subscopeInputs := [], subscopeOutputs := []
    subscopeSummary := [], guarantees := [], capabilities := []
    outstanding_messages := [], progressBuf := [], consumedBuf := []
    producedBuf := [], guarantee_changes := [], pointstamps := emptyPC
    input_messages := [] }

/-- A `PointstampCounter` holding one source count, used as a concrete
state witness. -/
def pcExample : PointstampCounter (Nat × Nat) :=
  { source_counts := [[[((0, 0), 1)]]], target_counts := [[[]]]
    input_counts := [[]], target_pushed := [[[]]], output_pushed := [[]] }

/-- A quiescent one-input, one-child subgraph whose graph input feeds the
child's input with summary `Local(0)`; a concrete witness state. -/
def c4Example : Subgraph Nat Nat Nat Nat :=
  { inputs := 1, outputs := 0, default_summary := .Local 0
    scope_edges := [[[]]]
    input_edges := [[Target.ScopeInput 0 0]]
    external_summaries := []
    source_summaries := [[[]]]
    target_summaries := [[[]]]
    input_summaries := [[(Target.ScopeInput 0 0, [Summary.Local 0])]]
    external_capability := [], external_guarantee := [[]]
    subscopeNotify := [true], subscopeInputs := [1], subscopeOutputs := [1]
    subscopeSummary := [[[[]]]]
    guarantees := [[[]]]
    capabilities := [[[]]]
    outstanding_messages := [[[]]]
    progressBuf := [[[]]], consumedBuf := [[[]]], producedBuf := [[[]]]
    guarantee_changes := [[[]]]
    pointstamps :=
      { source_counts := [[[]]], target_counts := [[[]]], input_counts := [[]]
        target_pushed := [[[]]], output_pushed := [] }
    input_messages := [[]] }

/-- A childless subgraph with one input and one output, whose input
feeds the graph output directly, and whose mailbox holds two messages
agreeing in the outer coordinate; a concrete witness state. -/
def c10Example : Subgraph Nat Nat Nat Nat :=
  { inputs := 1, outputs := 1, default_summary := .Local 0
    scope_edges := [], input_edges := [[Target.GraphOutput 0]]
    external_summaries := [], source_summaries := [], target_summaries := []
    input_summaries := [], external_capability := [[]], external_guarantee := [[]]
    subscopeNotify := [], subscopeInputs := [], subscopeOutputs := []
    subscopeSummary := [], guarantees := [], capabilities := []
    outstanding_messages := [], progressBuf := [], consumedBuf := []
    producedBuf := [], guarantee_changes := [], pointstamps := emptyPC
    input_messages := [[((5, 3), 1), ((5, 4), 1)]] }

/-- The deposits of a childless subgraph's children: there are none. -/
def c10Dep : Nat → List (List ((Nat × Nat) × Int)) ×
    List (List ((Nat × Nat) × Int)) × List (List ((Nat × Nat) × Int)) :=
  fun _ => ([], [], [])

theorem natCmp_le (a b : Nat) : cmpLeB (natCmp a b) = true ↔ a ≤ b := by
  unfold natCmp
  by_cases h1 : a < b
  · simp [h1, cmpLeB]
    omega
  · by_cases h2 : a = b
    · simp [h1, h2, cmpLeB]
    · simp [h1, h2, cmpLeB]
      omega

theorem natCmp_eq_imp (a b : Nat) : natCmp a b = some Ordering.eq → a = b := by
  unfold natCmp
  intro h
  split at h
  · simp at h
  · split at h
    · assumption
    · simp at h

theorem natCmp_refl (a : Nat) : natCmp a a = some Ordering.eq := by
  unfold natCmp
  simp

theorem natCmp_add_mono (s a b : Nat) (h : cmpLeB (natCmp a b) = true) :
    cmpLeB (natCmp (a + s) (b + s)) = true := by
  rw [natCmp_le] at h ⊢
  omega

theorem pairCmp_mk {TO TI SO SI : Type} (A : Alg TO TI SO SI)
    (o : TO) (n : TI) (o2 : TO) (n2 : TI) :
    pairCmp A (o, n) (o2, n2) =
      match A.toCmp o o2 with
      | some Ordering.eq => A.tiCmp n n2
      | r => r := rfl

theorem pairLeB_iff {TO TI SO SI : Type} (A : Alg TO TI SO SI)
    (o : TO) (n : TI) (o2 : TO) (n2 : TI) :
    pairLeB A (o, n) (o2, n2) = true ↔
      A.toCmp o o2 = some Ordering.lt ∨
      (A.toCmp o o2 = some Ordering.eq ∧ cmpLeB (A.tiCmp n n2) = true) := by
  unfold pairLeB
  rw [pairCmp_mk]
  rcases hc : A.toCmp o o2 with _ | c
  · simp [cmpLeB]
  · cases c <;> simp [cmpLeB]

/-- C1 counterexample: with additive `uint` summaries, `partial_cmp`
asserts `Local(1) < Outer(0, 0)`, yet at the timestamp `(0, 0)` we get
`Local(1).results_in((0,0)) = (0,1)` and `Outer(0,0).results_in((0,0)) = (0,0)`,
and `(0,1) <= (0,0)` is false, so pointwise `results_in` dominance fails:
the implemented order does not coincide with pointwise dominance. -/
theorem c1_counterexample :
    summaryLeB natAlg (Summary.Local 1) (Summary.Outer 0 0) = true ∧
    pairLeB natAlg (Summary.resultsIn natAlg (Summary.Local 1) (0, 0))
      (Summary.resultsIn natAlg (Summary.Outer 0 0) (0, 0)) = false := by
  constructor
  · rfl
  · rfl

/-- C1 (amended): `partial_cmp` orders `Local(i)` against `Local(j)` by
the inner component order, orders `Outer(s,i)` against `Outer(t,j)`
lexicographically via the component orders — by the inner components
when the outer components are equal, by the outer components otherwise —
and makes every `Local` summary strictly less than every `Outer` summary
unconditionally: `Local(i).partial_cmp(Outer(s,j))` returns `Some(Less)`
(and the flipped comparison `Some(Greater)`) for all `i`, `s`, `j` and
all component orders, regardless of how the summaries' actions on
timestamps compare. -/
theorem c1_amended {S T : Type} [DecidableEq S]
    (sCmp : S → S → Option Ordering) (tCmp : T → T → Option Ordering)
    (i j : T) (s t : S) :
    Summary.pcmp sCmp tCmp (Summary.Local i) (Summary.Local j) = tCmp i j ∧
    (s = t →
      Summary.pcmp sCmp tCmp (Summary.Outer s i) (Summary.Outer t j) = tCmp i j) ∧
    (s ≠ t →
      Summary.pcmp sCmp tCmp (Summary.Outer s i) (Summary.Outer t j) = sCmp s t) ∧
    Summary.pcmp sCmp tCmp (Summary.Local i) (Summary.Outer s j) =
      some Ordering.lt ∧
    Summary.pcmp sCmp tCmp (Summary.Outer s i) (Summary.Local j) =
      some Ordering.gt := by
  refine ⟨rfl, ?_, ?_, rfl, rfl⟩
  · intro h
    show (if s = t then tCmp i j else sCmp s t) = tCmp i j
    rw [if_pos h]
  · intro h
    show (if s = t then tCmp i j else sCmp s t) = sCmp s t
    rw [if_neg h]

/-- C1 witness: the amended clauses at the `uint` comparators, with the
equal-outer, distinct-outer and `Local`-vs-`Outer` cases each exercised
at concrete summaries. -/
theorem c1_witness :
    Summary.pcmp natCmp natCmp (Summary.Outer (2 : Nat) (1 : Nat))
      (Summary.Outer 2 3) = natCmp 1 3 ∧
    Summary.pcmp natCmp natCmp (Summary.Outer (2 : Nat) (1 : Nat))
      (Summary.Outer 5 3) = natCmp 2 5 ∧
    Summary.pcmp natCmp natCmp (Summary.Local (7 : Nat) : Summary Nat Nat)
      (Summary.Outer 0 0) = some Ordering.lt :=
  ⟨(c1_amended natCmp natCmp 1 3 2 2).2.1 rfl,
   (c1_amended natCmp natCmp 1 3 2 5).2.2.1 (by decide),
   (c1_amended natCmp natCmp 7 0 0 0).2.2.2.1⟩

/-- C2: `Summary::results_in` is monotone on product timestamps under the
lexicographic order, provided the component `results_in` operations are
monotone and the component comparisons are lawful (reflexive, and
`Some(Equal)` implies equality). -/
theorem c2_results_in_monotone {TO TI SO SI : Type}
    (A : Alg TO TI SO SI)
    (hToEq : ∀ o o2 : TO, A.toCmp o o2 = some Ordering.eq → o = o2)
    (hTiRefl : ∀ n : TI, A.tiCmp n n = some Ordering.eq)
    (hSoMono : ∀ (s : SO) (o o2 : TO), cmpLeB (A.toCmp o o2) = true →
      cmpLeB (A.toCmp (A.soRi s o) (A.soRi s o2)) = true)
    (hSiMono : ∀ (i : SI) (n n2 : TI), cmpLeB (A.tiCmp n n2) = true →
      cmpLeB (A.tiCmp (A.siRi i n) (A.siRi i n2)) = true)
    (s : Summary SO SI) (t t2 : TO × TI)
    (h : pairLeB A t t2 = true) :
    pairLeB A (Summary.resultsIn A s t) (Summary.resultsIn A s t2) = true := by
  obtain ⟨o, n⟩ := t
  obtain ⟨o2, n2⟩ := t2
  rw [pairLeB_iff] at h
  cases s with
  | Local i =>
    show pairLeB A (o, A.siRi i n) (o2, A.siRi i n2) = true
    rw [pairLeB_iff]
    rcases h with hlt | ⟨heq, hle⟩
    · exact Or.inl hlt
    · have ho : o = o2 := hToEq o o2 heq
      subst ho
      exact Or.inr ⟨heq, hSiMono i n n2 hle⟩
  | Outer so i =>
    show pairLeB A (A.soRi so o, A.siRi i A.tiDefault)
      (A.soRi so o2, A.siRi i A.tiDefault) = true
    have hole : cmpLeB (A.toCmp o o2) = true := by
      rcases h with hlt | ⟨heq, _⟩
      · rw [hlt]; rfl
      · rw [heq]; rfl
    have hmono := hSoMono so o o2 hole
    rw [pairLeB_iff]
    rcases hr : A.toCmp (A.soRi so o) (A.soRi so o2) with _ | c
    · rw [hr] at hmono; exact absurd hmono (by simp [cmpLeB])
    · cases c with
      | lt => exact Or.inl rfl
      | eq => exact Or.inr ⟨rfl, by rw [hTiRefl]; rfl⟩
      | gt => rw [hr] at hmono; exact absurd hmono (by simp [cmpLeB])

/-- C2 witness: monotonicity applied at the concrete additive `uint`
instantiation, summary `Outer(1, 2)` and timestamps `(3, 4) <= (3, 7)`. -/
theorem c2_witness :
    pairLeB natAlg (Summary.resultsIn natAlg (Summary.Outer 1 2) (3, 4))
      (Summary.resultsIn natAlg (Summary.Outer 1 2) (3, 7)) = true :=
  c2_results_in_monotone natAlg natCmp_eq_imp natCmp_refl
    (fun s a b h => natCmp_add_mono s a b h)
    (fun s a b h => natCmp_add_mono s a b h)
    (Summary.Outer 1 2) (3, 4) (3, 7) (by decide)

/-- C3: `Summary::followed_by` is associative, provided the component
`followed_by` operations are associative. -/
theorem c3_followed_by_assoc {TO TI SO SI : Type}
    (A : Alg TO TI SO SI)
    (hSo : ∀ a b c : SO, A.soFb (A.soFb a b) c = A.soFb a (A.soFb b c))
    (hSi : ∀ a b c : SI, A.siFb (A.siFb a b) c = A.siFb a (A.siFb b c))
    (a b c : Summary SO SI) :
    Summary.followedBy A (Summary.followedBy A a b) c =
      Summary.followedBy A a (Summary.followedBy A b c) := by
  cases a <;> cases b <;> cases c <;> simp [Summary.followedBy, hSo, hSi]

/-- C3 witness: associativity at the additive `uint` instantiation on
concrete summaries. -/
theorem c3_witness :
    Summary.followedBy natAlg
      (Summary.followedBy natAlg (Summary.Outer 1 2) (Summary.Local 3)) (Summary.Outer 4 5) =
    Summary.followedBy natAlg (Summary.Outer 1 2)
      (Summary.followedBy natAlg (Summary.Local 3) (Summary.Outer 4 5)) :=
  c3_followed_by_assoc natAlg (fun a b c => Nat.add_assoc a b c)
    (fun a b c => Nat.add_assoc a b c)
    (Summary.Outer 1 2) (Summary.Local 3) (Summary.Outer 4 5)

theorem nth_replicate {α : Type} (d : α) (n i : Nat) :
    nth d (List.replicate n d) i = d := by
  induction n generalizing i with
  | zero => cases i <;> rfl
  | succ n ih =>
    cases i with
    | zero => rfl
    | succ i => exact ih i

theorem growTo_cons {α : Type} (a : α) (l : List α) (n : Nat) (d : α) :
    growTo (a :: l) n d = a :: growTo l (n - 1) d := by
  show a :: (l ++ List.replicate (n - (l.length + 1)) d) =
    a :: (l ++ List.replicate (n - 1 - l.length) d)
  have h : n - (l.length + 1) = n - 1 - l.length := by omega
  rw [h]

theorem nth_growTo {α : Type} (d : α) (l : List α) (n i : Nat) :
    nth d (growTo l n d) i = nth d l i := by
  induction l generalizing n i with
  | nil =>
    show nth d (List.replicate (n - 0) d) i = nth d [] i
    rw [nth_replicate]
    cases i <;> rfl
  | cons a r ih =>
    rw [growTo_cons]
    cases i with
    | zero => rfl
    | succ i => exact ih (n - 1) i

theorem le_length_growTo {α : Type} (l : List α) (n : Nat) (d : α) :
    n ≤ (growTo l n d).length := by
  unfold growTo
  rw [List.length_append, List.length_replicate]
  omega

theorem nth_setNth_eq {α : Type} (d : α) (l : List α) (i : Nat) (b : α)
    (h : i < l.length) : nth d (setNth l i b) i = b := by
  induction l generalizing i with
  | nil => simp at h
  | cons a r ih =>
    cases i with
    | zero => rfl
    | succ i =>
      exact ih i (by simpa using h)

/-- C7 counterexample: on a freshly constructed subgraph with no child
scopes at all, `connect(ScopeOutput(5, 2), GraphOutput(0))` does not
abort: it silently grows the edge table to six scopes and records the
edge. -/
theorem c7_counterexample :
    (Subgraph.connect emptySubgraph (Source.ScopeOutput 5 2)
      (Target.GraphOutput 0)).scope_edges =
    [[], [], [], [], [], [[], [], [Target.GraphOutput 0]]] := by rfl

/-- C7 (amended): `connect` performs no validation at all.  For every
state and every source, existent or not, the call succeeds silently:
it grows the edge tables as needed and appends the target to the edge
list of the named source location. -/
theorem c7_amended {TO TI SO SI : Type} (g : Subgraph TO TI SO SI)
    (scope index : Nat) (target : Target) :
    nth [] (nth [] (Subgraph.connect g (Source.ScopeOutput scope index) target).scope_edges
        scope) index =
      nth [] (nth [] g.scope_edges scope) index ++ [target] ∧
    ∀ input : Nat,
      nth [] (Subgraph.connect g (Source.GraphInput input) target).input_edges input =
        nth [] g.input_edges input ++ [target] := by
  constructor
  · show nth [] (nth []
      (setNth (growTo g.scope_edges (scope + 1) [])
        scope
        (setNth (growTo (nth [] (growTo g.scope_edges (scope + 1) []) scope) (index + 1) [])
          index
          (nth [] (growTo (nth [] (growTo g.scope_edges (scope + 1) []) scope) (index + 1) [])
            index ++ [target])))
      scope) index = _
    rw [nth_setNth_eq]
    · rw [nth_setNth_eq]
      · rw [nth_growTo, nth_growTo]
      · exact Nat.lt_of_lt_of_le (Nat.lt_succ_self index) (le_length_growTo _ _ _)
    · exact Nat.lt_of_lt_of_le (Nat.lt_succ_self scope) (le_length_growTo _ _ _)
  · intro input
    show nth []
      (setNth (growTo g.input_edges (input + 1) [])
        input
        (nth [] (growTo g.input_edges (input + 1) []) input ++ [target])) input = _
    rw [nth_setNth_eq]
    · rw [nth_growTo]
    · exact Nat.lt_of_lt_of_le (Nat.lt_succ_self input) (le_length_growTo _ _ _)

theorem nth_map {α β : Type} (f : α → β) (d : α) (l : List α) (i : Nat) :
    nth (f d) (l.map f) i = f (nth d l i) := by
  induction l generalizing i with
  | nil => cases i <;> rfl
  | cons a r ih =>
    cases i with
    | zero => rfl
    | succ i => exact ih i

theorem setNth_map {α β : Type} (f : α → β) (l : List α) (i : Nat) (b : α) :
    setNth (l.map f) i (f b) = (setNth l i b).map f := by
  induction l generalizing i with
  | nil => rfl
  | cons a r ih =>
    cases i with
    | zero => rfl
    | succ i =>
      show f a :: setNth (r.map f) i (f b) = f a :: (setNth r i b).map f
      rw [ih]

theorem setNth_nth {α : Type} (d : α) (l : List α) (i : Nat) :
    setNth l i (nth d l i) = l := by
  induction l generalizing i with
  | nil => rfl
  | cons a r ih =>
    cases i with
    | zero => rfl
    | succ i =>
      show a :: setNth r i (nth d r i) = a :: r
      rw [ih]

theorem length_setNth {α : Type} (l : List α) (i : Nat) (b : α) :
    (setNth l i b).length = l.length := by
  induction l generalizing i with
  | nil => rfl
  | cons a r ih =>
    cases i with
    | zero => rfl
    | succ i =>
      show (setNth r i b).length + 1 = r.length + 1
      rw [ih]

theorem nth_mem {α : Type} (d : α) (l : List α) (i : Nat) :
    nth d l i = d ∨ nth d l i ∈ l := by
  induction l generalizing i with
  | nil => exact Or.inl rfl
  | cons a r ih =>
    cases i with
    | zero => exact Or.inr (List.mem_cons_self a r)
    | succ i =>
      rcases ih i with h | h
      · exact Or.inl h
      · exact Or.inr (List.mem_cons_of_mem a h)

theorem map_eq_self {α : Type} (f : α → α) (l : List α) (h : ∀ a ∈ l, f a = a) :
    l.map f = l := by
  induction l with
  | nil => rfl
  | cons a r ih =>
    show f a :: r.map f = a :: r
    rw [h a (List.mem_cons_self a r), ih (fun x hx => h x (List.mem_cons_of_mem a hx))]

theorem nth_mapIdxFrom {α : Type} (d : α) (f : Nat → α → α) (k : Nat) (l : List α)
    (i : Nat) :
    nth d (mapIdxFrom f k l) i = if i < l.length then f (k + i) (nth d l i) else d := by
  induction l generalizing k i with
  | nil => cases i <;> rfl
  | cons a r ih =>
    cases i with
    | zero => simp [mapIdxFrom, nth]
    | succ i =>
      show nth d (mapIdxFrom f (k + 1) r) i = _
      rw [ih (k + 1) i]
      by_cases h : i < r.length
      · rw [if_pos h, if_pos (by simpa using Nat.succ_lt_succ h)]
        have : k + 1 + i = k + (i + 1) := by omega
        rw [this]
        rfl
      · rw [if_neg h, if_neg (by simp; omega)]

theorem nth_mapIdxL {α : Type} (d : α) (f : Nat → α → α) (l : List α) (i : Nat) :
    nth d (mapIdxL f l) i = if i < l.length then f i (nth d l i) else d := by
  unfold mapIdxL
  rw [nth_mapIdxFrom]
  simp

theorem length_mapIdxFrom {α β : Type} (f : Nat → α → β) (k : Nat) (l : List α) :
    (mapIdxFrom f k l).length = l.length := by
  induction l generalizing k with
  | nil => rfl
  | cons a r ih =>
    show (mapIdxFrom f (k + 1) r).length + 1 = r.length + 1
    rw [ih]

theorem length_mapIdxL {α β : Type} (f : Nat → α → β) (l : List α) :
    (mapIdxL f l).length = l.length := length_mapIdxFrom f 0 l

theorem cmUpdate_neg {T : Type} [DecidableEq T] (m : List (T × Int)) (t : T) (v : Int) :
    cmUpdate (negCM m) t (-v) = negCM (cmUpdate m t v) := by
  induction m with
  | nil =>
    show (if -v = 0 then [] else [(t, -v)]) = negCM (if v = 0 then [] else [(t, v)])
    by_cases h : v = 0
    · subst h
      rfl
    · rw [if_neg h, if_neg (by omega : ¬(-v = 0))]
      rfl
  | cons p rest ih =>
    obtain ⟨u, c⟩ := p
    show cmUpdate ((u, -c) :: negCM rest) t (-v) = negCM (cmUpdate ((u, c) :: rest) t v)
    by_cases h : u = t
    · by_cases h2 : c + v = 0
      · simp only [cmUpdate, if_pos h, if_pos h2, if_pos (by omega : -c + -v = 0)]
      · simp only [cmUpdate, if_pos h, if_neg h2, if_neg (by omega : ¬(-c + -v = 0))]
        show _ = (u, -(c + v)) :: negCM rest
        have : -c + -v = -(c + v) := by omega
        rw [this]
    · simp only [cmUpdate, if_neg h]
      show (u, -c) :: cmUpdate (negCM rest) t (-v) = (u, -c) :: negCM (cmUpdate rest t v)
      rw [ih]

theorem cmUpdates_neg {T : Type} [DecidableEq T] (m l : List (T × Int)) :
    cmUpdates (negCM m) (negCM l) = negCM (cmUpdates m l) := by
  induction l generalizing m with
  | nil => rfl
  | cons p rest ih =>
    show cmUpdates (cmUpdate (negCM m) p.1 (-p.2)) (negCM rest) =
      negCM (cmUpdates (cmUpdate m p.1 p.2) rest)
    rw [cmUpdate_neg]
    exact ih _

theorem cmCount_cmUpdate {T : Type} [DecidableEq T] (m : List (T × Int)) (t u : T)
    (v : Int) :
    cmCount (cmUpdate m t v) u = cmCount m u + (if t = u then v else 0) := by
  induction m with
  | nil =>
    show cmCount (if v = 0 then [] else [(t, v)]) u = 0 + (if t = u then v else 0)
    by_cases h : v = 0
    · rw [if_pos h]
      subst h
      show (0 : Int) = 0 + (if t = u then 0 else 0)
      by_cases h2 : t = u <;> simp [h2]
    · rw [if_neg h]
      show (if t = u then v else 0) + 0 = 0 + (if t = u then v else 0)
      omega
  | cons p rest ih =>
    obtain ⟨w, c⟩ := p
    show cmCount (if w = t then (if c + v = 0 then rest else (w, c + v) :: rest)
      else (w, c) :: cmUpdate rest t v) u =
      ((if w = u then c else 0) + cmCount rest u) + (if t = u then v else 0)
    by_cases h : w = t
    · subst h
      rw [if_pos rfl]
      by_cases h2 : c + v = 0
      · rw [if_pos h2]
        by_cases h3 : w = u <;> (simp [h3]; try omega)
      · rw [if_neg h2]
        show (if w = u then c + v else 0) + cmCount rest u = _
        by_cases h3 : w = u <;> simp [h3]
        omega
    · rw [if_neg h]
      show (if w = u then c else 0) + cmCount (cmUpdate rest t v) u = _
      rw [ih]
      omega

theorem cmCount_cmUpdates {T : Type} [DecidableEq T] (m l : List (T × Int)) (t : T) :
    cmCount (cmUpdates m l) t = cmCount m t + cmCount l t := by
  induction l generalizing m with
  | nil =>
    show cmCount m t = cmCount m t + 0
    omega
  | cons p rest ih =>
    show cmCount (cmUpdates (cmUpdate m p.1 p.2) rest) t =
      cmCount m t + ((if p.1 = t then p.2 else 0) + cmCount rest t)
    rw [ih, cmCount_cmUpdate]
    omega

theorem cmCount_neg {T : Type} [DecidableEq T] (l : List (T × Int)) (t : T) :
    cmCount (negCM l) t = -(cmCount l t) := by
  induction l with
  | nil => rfl
  | cons p rest ih =>
    show (if p.1 = t then -p.2 else 0) + cmCount (negCM rest) t =
      -((if p.1 = t then p.2 else 0) + cmCount rest t)
    rw [ih]
    by_cases h : p.1 = t <;> simp [h]
    omega

/-- C8 counterexample: `PointstampCounter::update` at a
`TargetLoc(GraphOutput(0))` location does not abort: it returns with all
count buckets untouched, merely emitting the `lolwut?` diagnostic
(recorded by the boolean flag). -/
theorem c8_counterexample :
    pcUpdate pcExample (Location.TargetLoc (Target.GraphOutput 0)) (3, 4) 1 =
      (pcExample, true) := rfl

/-- C8 (amended): an update whose location is the `TargetLoc` of a
`GraphOutput` (a location with no raw-count bucket) is dropped, not
fatal: for every counter state, timestamp and delta, the call leaves the
counter unchanged and only emits the diagnostic. -/
theorem c8_amended {TS : Type} [DecidableEq TS] (pc : PointstampCounter TS)
    (o : Nat) (t : TS) (v : Int) :
    pcUpdate pc (Location.TargetLoc (Target.GraphOutput o)) t v = (pc, true) := rfl

theorem upd1_neg {TS : Type} [DecidableEq TS] (l : List (List (TS × Int))) (i : Nat)
    (t : TS) (v : Int) :
    upd1 (l.map negCM) i t (-v) = (upd1 l i t v).map negCM := by
  unfold upd1
  have h1 : nth ([] : List (TS × Int)) (l.map negCM) i = negCM (nth [] l i) :=
    nth_map negCM [] l i
  rw [h1, cmUpdate_neg]
  exact setNth_map negCM l i (cmUpdate (nth [] l i) t v)

theorem upd2_neg {TS : Type} [DecidableEq TS] (l : List (List (List (TS × Int))))
    (i j : Nat) (t : TS) (v : Int) :
    upd2 (l.map (fun v2 => v2.map negCM)) i j t (-v) =
      (upd2 l i j t v).map (fun v2 => v2.map negCM) := by
  unfold upd2
  have h1 : nth ([] : List (List (TS × Int))) (l.map (fun v2 => v2.map negCM)) i =
      (nth [] l i).map negCM := nth_map (fun v2 => v2.map negCM) [] l i
  rw [h1, upd1_neg]
  exact setNth_map (fun v2 => v2.map negCM) l i (upd1 (nth [] l i) j t v)

theorem pushedUpdate_neg {TS : Type} [DecidableEq TS]
    (p : List (List (List (TS × Int))) × List (List (TS × Int)))
    (target : Target) (t : TS) (v : Int) :
    pushedUpdate (negPushed p) target t (-v) = negPushed (pushedUpdate p target t v) := by
  cases target with
  | ScopeInput s i =>
    show (upd2 (p.1.map (fun v2 => v2.map negCM)) s i t (-v), p.2.map negCM) =
      negPushed (upd2 p.1 s i t v, p.2)
    rw [upd2_neg]
    rfl
  | GraphOutput o =>
    show (p.1.map (fun v2 => v2.map negCM), upd1 (p.2.map negCM) o t (-v)) =
      negPushed (p.1, upd1 p.2 o t v)
    rw [upd1_neg]
    rfl

theorem foldl_negPushed {TS α : Type} (ns : List α)
    (F F2 : (List (List (List (TS × Int))) × List (List (TS × Int))) → α →
      (List (List (List (TS × Int))) × List (List (TS × Int))))
    (h : ∀ p i, i ∈ ns → F2 (negPushed p) i = negPushed (F p i))
    (p : List (List (List (TS × Int))) × List (List (TS × Int))) :
    ns.foldl F2 (negPushed p) = negPushed (ns.foldl F p) := by
  induction ns generalizing p with
  | nil => rfl
  | cons n rest ih =>
    show rest.foldl F2 (F2 (negPushed p) n) = negPushed (rest.foldl F (F p n))
    rw [h p n (List.mem_cons_self n rest)]
    exact ih (fun p i hi => h p i (List.mem_cons_of_mem n hi)) (F p n)

theorem negCM_cons {T : Type} (t0 : T) (v0 : Int) (l : List (T × Int)) :
    negCM ((t0, v0) :: l) = (t0, -v0) :: negCM l := rfl

theorem propagateCM_cons {TO TI SO SI : Type} [DecidableEq TO] [DecidableEq TI]
    (A : Alg TO TI SO SI) (tbl : List (Target × List (Summary SO SI)))
    (t0 : TO × TI) (v0 : Int) (cm : List ((TO × TI) × Int))
    (p : List (List (List ((TO × TI) × Int))) × List (List ((TO × TI) × Int))) :
    propagateCM A tbl ((t0, v0) :: cm) p =
    propagateCM A tbl cm (tbl.foldl (fun acc2 row =>
      row.2.foldl (fun acc3 s =>
        pushedUpdate acc3 row.1 (Summary.resultsIn A s t0) v0) acc2) p) := rfl

theorem propagateCM_neg {TO TI SO SI : Type} [DecidableEq TO] [DecidableEq TI]
    (A : Alg TO TI SO SI) (tbl : List (Target × List (Summary SO SI)))
    (cm : List ((TO × TI) × Int))
    (p : List (List (List ((TO × TI) × Int))) × List (List ((TO × TI) × Int))) :
    propagateCM A tbl (negCM cm) (negPushed p) = negPushed (propagateCM A tbl cm p) := by
  induction cm generalizing p with
  | nil => rfl
  | cons e rest ih =>
    obtain ⟨t0, v0⟩ := e
    rw [negCM_cons, propagateCM_cons, propagateCM_cons]
    have h : tbl.foldl (fun acc2 row =>
        row.2.foldl (fun acc3 s =>
          pushedUpdate acc3 row.1 (Summary.resultsIn A s t0) (-v0)) acc2) (negPushed p) =
      negPushed (tbl.foldl (fun acc2 row =>
        row.2.foldl (fun acc3 s =>
          pushedUpdate acc3 row.1 (Summary.resultsIn A s t0) v0) acc2) p) := by
      apply foldl_negPushed
      intro q row _
      apply foldl_negPushed
      intro q2 s _
      exact pushedUpdate_neg q2 row.1 (Summary.resultsIn A s t0) v0
    rw [h]
    exact ih _

theorem nth2_map_negCM {TS : Type} (l : List (List (List (TS × Int)))) (i j : Nat) :
    nth [] (nth [] (l.map (fun v2 => v2.map negCM)) i) j = negCM (nth [] (nth [] l i) j) := by
  have h1 : nth ([] : List (List (TS × Int))) (l.map (fun v2 => v2.map negCM)) i =
      (nth [] l i).map negCM := nth_map (fun v2 => v2.map negCM) [] l i
  rw [h1]
  exact nth_map negCM [] (nth [] l i) j

theorem propScopes_neg {TO TI SO SI : Type} [DecidableEq TO] [DecidableEq TI]
    (A : Alg TO TI SO SI) (n : Nat) (sIn sOut : List Nat)
    (tS sS : List (List (List (Target × List (Summary SO SI)))))
    (tc sc : List (List (List ((TO × TI) × Int))))
    (p : List (List (List ((TO × TI) × Int))) × List (List ((TO × TI) × Int))) :
    propScopes A n sIn sOut tS sS (tc.map (fun v2 => v2.map negCM))
      (sc.map (fun v2 => v2.map negCM)) (negPushed p) =
    negPushed (propScopes A n sIn sOut tS sS tc sc p) := by
  unfold propScopes
  apply foldl_negPushed
  intro q scope _
  show (idx (nth 0 sOut scope)).foldl _
      ((idx (nth 0 sIn scope)).foldl _ (negPushed q)) = _
  have h1 : (idx (nth 0 sIn scope)).foldl (fun a input =>
      propagateCM A (nth [] (nth [] tS scope) input)
        (nth [] (nth [] (tc.map (fun v2 => v2.map negCM)) scope) input) a) (negPushed q) =
    negPushed ((idx (nth 0 sIn scope)).foldl (fun a input =>
      propagateCM A (nth [] (nth [] tS scope) input)
        (nth [] (nth [] tc scope) input) a) q) := by
    apply foldl_negPushed
    intro q2 input _
    rw [nth2_map_negCM]
    exact propagateCM_neg A _ _ q2
  rw [h1]
  apply foldl_negPushed
  intro q2 output _
  rw [nth2_map_negCM]
  exact propagateCM_neg A _ _ q2

theorem propInputs_neg {TO TI SO SI : Type} [DecidableEq TO] [DecidableEq TI]
    (A : Alg TO TI SO SI) (numIn : Nat)
    (iS : List (List (Target × List (Summary SO SI))))
    (ic : List (List ((TO × TI) × Int)))
    (p : List (List (List ((TO × TI) × Int))) × List (List ((TO × TI) × Int))) :
    propInputs A numIn iS (ic.map negCM) (negPushed p) =
    negPushed (propInputs A numIn iS ic p) := by
  unfold propInputs
  apply foldl_negPushed
  intro q input _
  have h1 : nth ([] : List ((TO × TI) × Int)) (ic.map negCM) input =
      negCM (nth [] ic input) := nth_map negCM [] ic input
  rw [h1]
  exact propagateCM_neg A _ _ q

theorem pushedAfter_neg {TO TI SO SI : Type} [DecidableEq TO] [DecidableEq TI]
    (A : Alg TO TI SO SI) (n : Nat) (sIn sOut : List Nat)
    (tS sS : List (List (List (Target × List (Summary SO SI)))))
    (iS : List (List (Target × List (Summary SO SI))))
    (numIn : Nat) (pc : PointstampCounter (TO × TI)) :
    pushedAfter A n sIn sOut tS sS iS numIn (pcNeg pc) =
    negPushed (pushedAfter A n sIn sOut tS sS iS numIn pc) := by
  show propInputs A numIn iS (pc.input_counts.map negCM)
      (propScopes A n sIn sOut tS sS (pc.target_counts.map (fun v2 => v2.map negCM))
        (pc.source_counts.map (fun v2 => v2.map negCM))
        (pc.target_pushed.map (fun v2 => v2.map negCM), pc.output_pushed.map negCM)) = _
  have h0 : (pc.target_pushed.map (fun v2 => v2.map negCM), pc.output_pushed.map negCM) =
      negPushed (pc.target_pushed, pc.output_pushed) := rfl
  rw [h0, propScopes_neg, propInputs_neg]
  rfl

theorem map_const_setNth {α β : Type} (c : β) (l : List α) (i : Nat) (b : α) :
    (setNth l i b).map (fun _ => c) = l.map (fun _ => c) := by
  induction l generalizing i with
  | nil => rfl
  | cons a r ih =>
    cases i with
    | zero => rfl
    | succ i =>
      show c :: (setNth r i b).map (fun _ => c) = c :: r.map (fun _ => c)
      rw [ih]

theorem clear1_upd1 {TS : Type} [DecidableEq TS] (l : List (List (TS × Int)))
    (i : Nat) (t : TS) (v : Int) :
    clear1 (upd1 l i t v) = clear1 l := by
  unfold upd1 clear1
  exact map_const_setNth [] l i _

theorem clear2_upd2 {TS : Type} [DecidableEq TS] (l : List (List (List (TS × Int))))
    (i j : Nat) (t : TS) (v : Int) :
    clear2 (upd2 l i j t v) = clear2 l := by
  unfold upd2
  induction l generalizing i with
  | nil => rfl
  | cons a r ih =>
    cases i with
    | zero =>
      show clear1 (upd1 a j t v) :: clear2 r = clear1 a :: clear2 r
      rw [clear1_upd1]
    | succ i =>
      show clear1 a :: clear2 (setNth r i (upd1 (nth [] r i) j t v)) =
        clear1 a :: clear2 r
      rw [ih]

theorem foldl_preserves {α β : Type} (P : β → Prop) (l : List α) (f : β → α → β)
    (h : ∀ b a, P b → P (f b a)) (b : β) (hb : P b) : P (l.foldl f b) := by
  induction l generalizing b with
  | nil => exact hb
  | cons a r ih => exact ih (f b a) (h b a hb)

theorem foldl_preserves_mem {α β : Type} (P : β → Prop) (l : List α) (f : β → α → β)
    (h : ∀ b a, a ∈ l → P b → P (f b a)) (b : β) (hb : P b) : P (l.foldl f b) := by
  induction l generalizing b with
  | nil => exact hb
  | cons a r ih =>
    exact ih (fun b2 a2 ha2 hb2 => h b2 a2 (List.mem_cons_of_mem a ha2) hb2) (f b a)
      (h b a (List.mem_cons_self a r) hb)

/-- Draining preserves the cleared image of both pushed groups: every
pushed write is an `upd1`/`upd2`, which never changes bucket structure. -/
theorem clear_pushedAfter {TO TI SO SI : Type} [DecidableEq TO] [DecidableEq TI]
    (A : Alg TO TI SO SI) (n : Nat) (sIn sOut : List Nat)
    (tS sS : List (List (List (Target × List (Summary SO SI)))))
    (iS : List (List (Target × List (Summary SO SI))))
    (numIn : Nat) (pc : PointstampCounter (TO × TI)) :
    clear2 (pushedAfter A n sIn sOut tS sS iS numIn pc).1 = clear2 pc.target_pushed ∧
    clear1 (pushedAfter A n sIn sOut tS sS iS numIn pc).2 = clear1 pc.output_pushed := by
  have hstep : ∀ (p : List (List (List ((TO × TI) × Int))) × List (List ((TO × TI) × Int)))
      (target : Target) (t : TO × TI) (v : Int),
      clear2 p.1 = clear2 pc.target_pushed ∧ clear1 p.2 = clear1 pc.output_pushed →
      clear2 (pushedUpdate p target t v).1 = clear2 pc.target_pushed ∧
        clear1 (pushedUpdate p target t v).2 = clear1 pc.output_pushed := by
    intro p target t v hp
    cases target with
    | ScopeInput s i =>
      refine ⟨?_, hp.2⟩
      show clear2 (upd2 p.1 s i t v) = clear2 pc.target_pushed
      rw [clear2_upd2]
      exact hp.1
    | GraphOutput o =>
      refine ⟨hp.1, ?_⟩
      show clear1 (upd1 p.2 o t v) = clear1 pc.output_pushed
      rw [clear1_upd1]
      exact hp.2
  have hcm : ∀ (tbl : List (Target × List (Summary SO SI)))
      (cm : List ((TO × TI) × Int))
      (p : List (List (List ((TO × TI) × Int))) × List (List ((TO × TI) × Int))),
      clear2 p.1 = clear2 pc.target_pushed ∧ clear1 p.2 = clear1 pc.output_pushed →
      clear2 (propagateCM A tbl cm p).1 = clear2 pc.target_pushed ∧
        clear1 (propagateCM A tbl cm p).2 = clear1 pc.output_pushed := by
    intro tbl cm p hp
    unfold propagateCM
    refine foldl_preserves (fun (q : List (List (List ((TO × TI) × Int))) × List (List ((TO × TI) × Int))) => clear2 q.1 = clear2 pc.target_pushed ∧ clear1 q.2 = clear1 pc.output_pushed) cm _ ?_ p hp
    intro b e hb
    refine foldl_preserves (fun (q : List (List (List ((TO × TI) × Int))) × List (List ((TO × TI) × Int))) => clear2 q.1 = clear2 pc.target_pushed ∧ clear1 q.2 = clear1 pc.output_pushed) tbl _ ?_ b hb
    intro b2 row hb2
    refine foldl_preserves (fun (q : List (List (List ((TO × TI) × Int))) × List (List ((TO × TI) × Int))) => clear2 q.1 = clear2 pc.target_pushed ∧ clear1 q.2 = clear1 pc.output_pushed) row.2 _ ?_ b2 hb2
    intro b3 s hb3
    exact hstep b3 row.1 (Summary.resultsIn A s e.1) e.2 hb3
  unfold pushedAfter propInputs propScopes
  refine foldl_preserves (fun (q : List (List (List ((TO × TI) × Int))) × List (List ((TO × TI) × Int))) => clear2 q.1 = clear2 pc.target_pushed ∧ clear1 q.2 = clear1 pc.output_pushed) _ _ ?_ _ (foldl_preserves (fun (q : List (List (List ((TO × TI) × Int))) × List (List ((TO × TI) × Int))) => clear2 q.1 = clear2 pc.target_pushed ∧ clear1 q.2 = clear1 pc.output_pushed) _ _ ?_ _ ⟨rfl, rfl⟩)
  · intro b input hb
    exact hcm _ _ _ hb
  · intro b scope hb
    refine foldl_preserves (fun (q : List (List (List ((TO × TI) × Int))) × List (List ((TO × TI) × Int))) => clear2 q.1 = clear2 pc.target_pushed ∧ clear1 q.2 = clear1 pc.output_pushed) _ _ ?_ _ (foldl_preserves (fun (q : List (List (List ((TO × TI) × Int))) × List (List ((TO × TI) × Int))) => clear2 q.1 = clear2 pc.target_pushed ∧ clear1 q.2 = clear1 pc.output_pushed) _ _ ?_ _ hb)
    · intro b2 output hb2
      exact hcm _ _ _ hb2
    · intro b2 input hb2
      exact hcm _ _ _ hb2

theorem pcUpdate_neg {TS : Type} [DecidableEq TS] (pc : PointstampCounter TS)
    (loc : Location) (t : TS) (v : Int) :
    (pcUpdate (pcNeg pc) loc t (-v)).1 = pcNeg (pcUpdate pc loc t v).1 := by
  cases loc with
  | SourceLoc s =>
    cases s with
    | GraphInput input =>
      apply PointstampCounter.ext
      · rfl
      · rfl
      · exact upd1_neg pc.input_counts input t v
      · rfl
      · rfl
    | ScopeOutput scope output =>
      apply PointstampCounter.ext
      · exact upd2_neg pc.source_counts scope output t v
      · rfl
      · rfl
      · rfl
      · rfl
  | TargetLoc tg =>
    cases tg with
    | GraphOutput o => rfl
    | ScopeInput scope input =>
      apply PointstampCounter.ext
      · rfl
      · exact upd2_neg pc.target_counts scope input t v
      · rfl
      · rfl
      · rfl

theorem injectRow_neg {TO TI SO SI : Type} [DecidableEq TO] [DecidableEq TI]
    (A : Alg TO TI SO SI) (k : Nat) (prog : List (TO × Int))
    (pc : PointstampCounter (TO × TI)) :
    (negCM prog).foldl (fun acc tv =>
      (pcUpdate acc (.SourceLoc (.GraphInput k)) (tv.1, A.tiDefault) tv.2).1) (pcNeg pc) =
    pcNeg (prog.foldl (fun acc tv =>
      (pcUpdate acc (.SourceLoc (.GraphInput k)) (tv.1, A.tiDefault) tv.2).1) pc) := by
  induction prog generalizing pc with
  | nil => rfl
  | cons tv rest ih =>
    obtain ⟨t0, v0⟩ := tv
    show (negCM rest).foldl _
      ((pcUpdate (pcNeg pc) (.SourceLoc (.GraphInput k)) (t0, A.tiDefault) (-v0)).1) = _
    rw [pcUpdate_neg]
    exact ih _

theorem injectFrontier_neg {TO TI SO SI : Type} [DecidableEq TO] [DecidableEq TI]
    (A : Alg TO TI SO SI) (pc : PointstampCounter (TO × TI)) (k : Nat)
    (fp : List (List (TO × Int))) :
    injectFrontier A (pcNeg pc) k (negD fp) = pcNeg (injectFrontier A pc k fp) := by
  induction fp generalizing pc k with
  | nil => rfl
  | cons prog rest ih =>
    show injectFrontier A ((negCM prog).foldl _ (pcNeg pc)) (k + 1) (negD rest) = _
    rw [injectRow_neg]
    exact ih _ _

theorem clear1_map_negCM {TS : Type} (l : List (List (TS × Int))) :
    clear1 (l.map negCM) = clear1 l := by
  induction l with
  | nil => rfl
  | cons v r ih =>
    show [] :: clear1 (r.map negCM) = [] :: clear1 r
    rw [ih]

theorem map_negCM_clear1 {TS : Type} (l : List (List (TS × Int))) :
    (clear1 l).map negCM = clear1 l := by
  induction l with
  | nil => rfl
  | cons v r ih =>
    show negCM [] :: (clear1 r).map negCM = [] :: clear1 r
    rw [ih]
    rfl

theorem clear2_map_negCM {TS : Type} (l : List (List (List (TS × Int)))) :
    clear2 (l.map (fun v2 => v2.map negCM)) = clear2 l := by
  induction l with
  | nil => rfl
  | cons v r ih =>
    show clear1 (v.map negCM) :: clear2 (r.map (fun v2 => v2.map negCM)) =
      clear1 v :: clear2 r
    rw [ih, clear1_map_negCM]

theorem map_negCM_clear2 {TS : Type} (l : List (List (List (TS × Int)))) :
    (clear2 l).map (fun v2 => v2.map negCM) = clear2 l := by
  induction l with
  | nil => rfl
  | cons v r ih =>
    show (clear1 v).map negCM :: (clear2 r).map (fun v2 => v2.map negCM) =
      clear1 v :: clear2 r
    rw [ih, map_negCM_clear1]

theorem pushPTpc_neg {TO TI SO SI : Type} [DecidableEq TO] [DecidableEq TI]
    (A : Alg TO TI SO SI) (n : Nat) (sIn sOut : List Nat)
    (tS sS : List (List (List (Target × List (Summary SO SI)))))
    (iS : List (List (Target × List (Summary SO SI))))
    (numIn : Nat) (pc : PointstampCounter (TO × TI)) :
    pushPTpc A n sIn sOut tS sS iS numIn (pcNeg pc) =
    pcNeg (pushPTpc A n sIn sOut tS sS iS numIn pc) := by
  apply PointstampCounter.ext
  · show clear2 (pc.source_counts.map (fun v2 => v2.map negCM)) =
      (clear2 pc.source_counts).map (fun v2 => v2.map negCM)
    rw [clear2_map_negCM, map_negCM_clear2]
  · show clear2 (pc.target_counts.map (fun v2 => v2.map negCM)) =
      (clear2 pc.target_counts).map (fun v2 => v2.map negCM)
    rw [clear2_map_negCM, map_negCM_clear2]
  · show clear1 (pc.input_counts.map negCM) = (clear1 pc.input_counts).map negCM
    rw [clear1_map_negCM, map_negCM_clear1]
  · show (pushedAfter A n sIn sOut tS sS iS numIn (pcNeg pc)).1 =
      ((pushedAfter A n sIn sOut tS sS iS numIn pc).1).map (fun v2 => v2.map negCM)
    rw [pushedAfter_neg]
    rfl
  · show (pushedAfter A n sIn sOut tS sS iS numIn (pcNeg pc)).2 =
      ((pushedAfter A n sIn sOut tS sS iS numIn pc).2).map negCM
    rw [pushedAfter_neg]
    rfl

theorem negCM_map_eq_self {TS : Type} (l : List (List (TS × Int)))
    (h : ∀ b ∈ l, b = []) : l.map negCM = l :=
  map_eq_self negCM l (fun a ha => by rw [h a ha]; rfl)

theorem negCM_map2_eq_self {TS : Type} (l : List (List (List (TS × Int))))
    (h : ∀ v ∈ l, ∀ b ∈ v, b = []) :
    l.map (fun v2 => v2.map negCM) = l :=
  map_eq_self _ l (fun v hv => negCM_map_eq_self v (h v hv))

theorem clear1_eq_self {TS : Type} (l : List (List (TS × Int)))
    (h : ∀ b ∈ l, b = []) : clear1 l = l :=
  map_eq_self _ l (fun a ha => by rw [h a ha])

theorem clear2_eq_self {TS : Type} (l : List (List (List (TS × Int))))
    (h : ∀ v ∈ l, ∀ b ∈ v, b = []) : clear2 l = l :=
  map_eq_self _ l (fun v hv => clear1_eq_self v (h v hv))

theorem pcNeg_empty {TS : Type} (pc : PointstampCounter TS)
    (H1 : ∀ v ∈ pc.source_counts, ∀ b ∈ v, b = [])
    (H2 : ∀ v ∈ pc.target_counts, ∀ b ∈ v, b = [])
    (H3 : ∀ b ∈ pc.input_counts, b = [])
    (H4 : ∀ v ∈ pc.target_pushed, ∀ b ∈ v, b = [])
    (H5 : ∀ b ∈ pc.output_pushed, b = []) :
    pcNeg pc = pc := by
  apply PointstampCounter.ext
  · exact negCM_map2_eq_self _ H1
  · exact negCM_map2_eq_self _ H2
  · exact negCM_map_eq_self _ H3
  · exact negCM_map2_eq_self _ H4
  · exact negCM_map_eq_self _ H5

theorem injectRow_proj {TO TI SO SI : Type} [DecidableEq TO] [DecidableEq TI]
    (A : Alg TO TI SO SI) (k : Nat) (prog : List (TO × Int))
    (pc : PointstampCounter (TO × TI)) :
    (prog.foldl (fun acc tv =>
      (pcUpdate acc (.SourceLoc (.GraphInput k)) (tv.1, A.tiDefault) tv.2).1) pc).source_counts
        = pc.source_counts ∧
    (prog.foldl (fun acc tv =>
      (pcUpdate acc (.SourceLoc (.GraphInput k)) (tv.1, A.tiDefault) tv.2).1) pc).target_counts
        = pc.target_counts ∧
    (prog.foldl (fun acc tv =>
      (pcUpdate acc (.SourceLoc (.GraphInput k)) (tv.1, A.tiDefault) tv.2).1) pc).target_pushed
        = pc.target_pushed ∧
    (prog.foldl (fun acc tv =>
      (pcUpdate acc (.SourceLoc (.GraphInput k)) (tv.1, A.tiDefault) tv.2).1) pc).output_pushed
        = pc.output_pushed ∧
    clear1 (prog.foldl (fun acc tv =>
      (pcUpdate acc (.SourceLoc (.GraphInput k)) (tv.1, A.tiDefault) tv.2).1) pc).input_counts
        = clear1 pc.input_counts := by
  induction prog generalizing pc with
  | nil => exact ⟨rfl, rfl, rfl, rfl, rfl⟩
  | cons tv rest ih =>
    obtain ⟨t0, v0⟩ := tv
    have h := ih { pc with input_counts := upd1 pc.input_counts k (t0, A.tiDefault) v0 }
    exact ⟨h.1, h.2.1, h.2.2.1, h.2.2.2.1,
      h.2.2.2.2.trans (clear1_upd1 pc.input_counts k (t0, A.tiDefault) v0)⟩

theorem injectFrontier_proj {TO TI SO SI : Type} [DecidableEq TO] [DecidableEq TI]
    (A : Alg TO TI SO SI) (pc : PointstampCounter (TO × TI)) (k : Nat)
    (fp : List (List (TO × Int))) :
    (injectFrontier A pc k fp).source_counts = pc.source_counts ∧
    (injectFrontier A pc k fp).target_counts = pc.target_counts ∧
    (injectFrontier A pc k fp).target_pushed = pc.target_pushed ∧
    (injectFrontier A pc k fp).output_pushed = pc.output_pushed ∧
    clear1 (injectFrontier A pc k fp).input_counts = clear1 pc.input_counts := by
  induction fp generalizing pc k with
  | nil => exact ⟨rfl, rfl, rfl, rfl, rfl⟩
  | cons prog rest ih =>
    have hrow := injectRow_proj A k prog pc
    have h := ih (prog.foldl (fun acc tv =>
      (pcUpdate acc (.SourceLoc (.GraphInput k)) (tv.1, A.tiDefault) tv.2).1) pc) (k + 1)
    exact ⟨h.1.trans hrow.1, h.2.1.trans hrow.2.1, h.2.2.1.trans hrow.2.2.1,
      h.2.2.2.1.trans hrow.2.2.2.1, h.2.2.2.2.trans hrow.2.2.2.2⟩

theorem pushExternalProgress_pc {TO TI SO SI : Type} [DecidableEq TO] [DecidableEq TI]
    (A : Alg TO TI SO SI) (st : Subgraph TO TI SO SI) (D : List (List (TO × Int)))
    (H1 : ∀ v ∈ st.pointstamps.source_counts, ∀ b ∈ v, b = [])
    (H2 : ∀ v ∈ st.pointstamps.target_counts, ∀ b ∈ v, b = [])
    (H3 : ∀ b ∈ st.pointstamps.input_counts, b = [])
    (H4 : ∀ v ∈ st.pointstamps.target_pushed, ∀ b ∈ v, b = [])
    (H5 : ∀ b ∈ st.pointstamps.output_pushed, b = []) :
    (Subgraph.pushExternalProgress A st D).1.pointstamps = st.pointstamps := by
  show pcClearPushed (pushPTpc A st.numScopes st.subscopeInputs st.subscopeOutputs
    st.target_summaries st.source_summaries st.input_summaries st.inputs
    (injectFrontier A st.pointstamps 0 D)) = st.pointstamps
  have hproj := injectFrontier_proj A st.pointstamps 0 D
  apply PointstampCounter.ext
  · show clear2 (injectFrontier A st.pointstamps 0 D).source_counts =
      st.pointstamps.source_counts
    rw [hproj.1]
    exact clear2_eq_self _ H1
  · show clear2 (injectFrontier A st.pointstamps 0 D).target_counts =
      st.pointstamps.target_counts
    rw [hproj.2.1]
    exact clear2_eq_self _ H2
  · show clear1 (injectFrontier A st.pointstamps 0 D).input_counts =
      st.pointstamps.input_counts
    rw [hproj.2.2.2.2]
    exact clear1_eq_self _ H3
  · show clear2 (pushedAfter A st.numScopes st.subscopeInputs st.subscopeOutputs
      st.target_summaries st.source_summaries st.input_summaries st.inputs
      (injectFrontier A st.pointstamps 0 D)).1 = st.pointstamps.target_pushed
    rw [(clear_pushedAfter A _ _ _ _ _ _ _ _).1, hproj.2.2.1]
    exact clear2_eq_self _ H4
  · show clear1 (pushedAfter A st.numScopes st.subscopeInputs st.subscopeOutputs
      st.target_summaries st.source_summaries st.input_summaries st.inputs
      (injectFrontier A st.pointstamps 0 D)).2 = st.pointstamps.output_pushed
    rw [(clear_pushedAfter A _ _ _ _ _ _ _ _).2, hproj.2.2.2.1]
    exact clear1_eq_self _ H5

theorem nth_ge_length {α : Type} (d : α) (l : List α) (i : Nat) (h : l.length ≤ i) :
    nth d l i = d := by
  induction l generalizing i with
  | nil => cases i <;> rfl
  | cons a r ih =>
    cases i with
    | zero => simp at h
    | succ i => exact ih i (by simpa using h)

theorem stepGuar_some {α β : Type} (r : α × β) (row : α) :
    stepGuar (some r) row = r.1 := rfl

theorem stepGuar_none {α β : Type} (row : α) :
    stepGuar (none : Option (α × β)) row = row := rfl

theorem stepChanges_some {TS : Type}
    (r : List (List (TS × Int)) × List (List (TS × Int))) (row : List (List (TS × Int))) :
    stepChanges (some r) row =
      if r.2.any (fun c => !c.isEmpty) then r.2.map (fun _ => []) else r.2 := rfl

theorem stepChanges_none {TS : Type} (row : List (List (TS × Int))) :
    stepChanges (none : Option (List (List (TS × Int)) × List (List (TS × Int)))) row =
      row := rfl

theorem guaranteeStep_pos {TO TI SO SI : Type} [DecidableEq TO] [DecidableEq TI]
    (A : Alg TO TI SO SI) (N : List Bool)
    (gs chs pushed : List (List (List ((TO × TI) × Int)))) (i : Nat)
    (h : nth false N i = true) :
    guaranteeStep A N gs chs pushed i =
      some (updateGuarantees A (nth [] gs i) (nth [] pushed i) (nth [] chs i)) := by
  unfold guaranteeStep
  rw [if_pos h]

theorem guaranteeStep_not {TO TI SO SI : Type} [DecidableEq TO] [DecidableEq TI]
    (A : Alg TO TI SO SI) (N : List Bool)
    (gs chs pushed : List (List (List ((TO × TI) × Int)))) (i : Nat)
    (h : nth false N i = false) :
    guaranteeStep A N gs chs pushed i = none := by
  unfold guaranteeStep
  rw [if_neg (by rw [h]; exact Bool.false_ne_true)]

theorem maUpdateIntoCm_fst {T : Type} [DecidableEq T] (ltb : T → T → Bool)
    (m batch changes : List (T × Int)) :
    (maUpdateIntoCm ltb m batch changes).1 = cmUpdates m batch := rfl

theorem updateGuarantees_fst_length {TO TI SO SI : Type}
    [DecidableEq TO] [DecidableEq TI] (A : Alg TO TI SO SI)
    (gs pushed chs : List (List ((TO × TI) × Int))) :
    (updateGuarantees A gs pushed chs).1.length = gs.length :=
  length_mapIdxL _ _

theorem updateGuarantees_snd_length {TO TI SO SI : Type}
    [DecidableEq TO] [DecidableEq TI] (A : Alg TO TI SO SI)
    (gs pushed chs : List (List ((TO × TI) × Int))) :
    (updateGuarantees A gs pushed chs).2.length = chs.length :=
  length_mapIdxL _ _

theorem updateGuarantees_fst_nth {TO TI SO SI : Type}
    [DecidableEq TO] [DecidableEq TI] (A : Alg TO TI SO SI)
    (gs pushed chs : List (List ((TO × TI) × Int))) (p : Nat) :
    nth [] (updateGuarantees A gs pushed chs).1 p =
      if p < gs.length then
        (if p < chs.length then cmUpdates (nth [] gs p) (nth [] pushed p)
         else nth [] gs p)
      else [] := by
  show nth [] (mapIdxL (fun p gp =>
    if p < chs.length then
      (maUpdateIntoCm (pairLtB A) gp (nth [] pushed p) (nth [] chs p)).1
    else gp) gs) p = _
  rw [nth_mapIdxL]
  by_cases h : p < gs.length
  · rw [if_pos h, if_pos h]
    by_cases h2 : p < chs.length
    · rw [if_pos h2, if_pos h2]
      rfl
    · rw [if_neg h2, if_neg h2]
  · rw [if_neg h, if_neg h]

theorem pushExternalProgress_guarantees {TO TI SO SI : Type}
    [DecidableEq TO] [DecidableEq TI]
    (A : Alg TO TI SO SI) (st : Subgraph TO TI SO SI) (D : List (List (TO × Int))) :
    (Subgraph.pushExternalProgress A st D).1.guarantees =
    mapIdxL (fun i row => stepGuar (guaranteeStep A st.subscopeNotify st.guarantees
      st.guarantee_changes (pushedForD A st D) i) row) st.guarantees := rfl

theorem pushExternalProgress_changes {TO TI SO SI : Type}
    [DecidableEq TO] [DecidableEq TI]
    (A : Alg TO TI SO SI) (st : Subgraph TO TI SO SI) (D : List (List (TO × Int))) :
    (Subgraph.pushExternalProgress A st D).1.guarantee_changes =
    mapIdxL (fun i row => stepChanges (guaranteeStep A st.subscopeNotify st.guarantees
      st.guarantee_changes (pushedForD A st D) i) row) st.guarantee_changes := rfl

theorem pushExternalProgress_notify {TO TI SO SI : Type}
    [DecidableEq TO] [DecidableEq TI]
    (A : Alg TO TI SO SI) (st : Subgraph TO TI SO SI) (D : List (List (TO × Int))) :
    (Subgraph.pushExternalProgress A st D).1.subscopeNotify = st.subscopeNotify := rfl

theorem pushedForD_inverse {TO TI SO SI : Type} [DecidableEq TO] [DecidableEq TI]
    (A : Alg TO TI SO SI) (st : Subgraph TO TI SO SI) (D : List (List (TO × Int)))
    (H1 : ∀ v ∈ st.pointstamps.source_counts, ∀ b ∈ v, b = [])
    (H2 : ∀ v ∈ st.pointstamps.target_counts, ∀ b ∈ v, b = [])
    (H3 : ∀ b ∈ st.pointstamps.input_counts, b = [])
    (H4 : ∀ v ∈ st.pointstamps.target_pushed, ∀ b ∈ v, b = [])
    (H5 : ∀ b ∈ st.pointstamps.output_pushed, b = []) :
    pushedForD A (Subgraph.pushExternalProgress A st D).1 (negD D) =
    (pushedForD A st D).map (fun v2 => v2.map negCM) := by
  show (pushedAfter A st.numScopes st.subscopeInputs st.subscopeOutputs
    st.target_summaries st.source_summaries st.input_summaries st.inputs
    (injectFrontier A (Subgraph.pushExternalProgress A st D).1.pointstamps 0 (negD D))).1 = _
  rw [pushExternalProgress_pc A st D H1 H2 H3 H4 H5]
  have hinj : injectFrontier A st.pointstamps 0 (negD D) =
      pcNeg (injectFrontier A st.pointstamps 0 D) := by
    conv_lhs => rw [← pcNeg_empty st.pointstamps H1 H2 H3 H4 H5]
    rw [injectFrontier_neg]
  rw [hinj, pushedAfter_neg]
  rfl

/-- C4: `push_external_progress(D)` followed by `push_external_progress(-D)`
restores every child's `guarantees` MutableAntichain to the multiset it
held before the first call (hence also its frontier, which is a function
of the held multiset), and leaves `external_capability` untouched — the
round trip produces no upward frontier change.  The hypotheses state that
the subgraph is between ticks: all raw-count and pushed buckets of the
pointstamp counter are drained, which every completed call
re-establishes. -/
theorem c4_push_external_inverse {TO TI SO SI : Type}
    [DecidableEq TO] [DecidableEq TI]
    (A : Alg TO TI SO SI) (st : Subgraph TO TI SO SI) (D : List (List (TO × Int)))
    (H1 : ∀ v ∈ st.pointstamps.source_counts, ∀ b ∈ v, b = [])
    (H2 : ∀ v ∈ st.pointstamps.target_counts, ∀ b ∈ v, b = [])
    (H3 : ∀ b ∈ st.pointstamps.input_counts, b = [])
    (H4 : ∀ v ∈ st.pointstamps.target_pushed, ∀ b ∈ v, b = [])
    (H5 : ∀ b ∈ st.pointstamps.output_pushed, b = []) :
    (∀ (scope port : Nat) (t : TO × TI),
      cmCount (nth [] (nth [] (Subgraph.pushExternalProgress A
        (Subgraph.pushExternalProgress A st D).1 (negD D)).1.guarantees scope) port) t =
      cmCount (nth [] (nth [] st.guarantees scope) port) t) ∧
    (Subgraph.pushExternalProgress A
      (Subgraph.pushExternalProgress A st D).1 (negD D)).1.external_capability =
      st.external_capability := by
  refine ⟨?_, rfl⟩
  intro scope port t
  rw [pushExternalProgress_guarantees A (Subgraph.pushExternalProgress A st D).1 (negD D),
    pushExternalProgress_notify, pushExternalProgress_changes A st D,
    pushedForD_inverse A st D H1 H2 H3 H4 H5,
    pushExternalProgress_guarantees A st D]
  generalize hG1 : mapIdxL (fun i row => stepGuar (guaranteeStep A st.subscopeNotify
    st.guarantees st.guarantee_changes (pushedForD A st D) i) row) st.guarantees = G1
  generalize hC1 : mapIdxL (fun i row => stepChanges (guaranteeStep A st.subscopeNotify
    st.guarantees st.guarantee_changes (pushedForD A st D) i) row) st.guarantee_changes = C1
  have hlenG1 : G1.length = st.guarantees.length := by
    rw [← hG1]
    exact length_mapIdxL _ _
  have hrowG1 : scope < st.guarantees.length →
      nth [] G1 scope = stepGuar (guaranteeStep A st.subscopeNotify st.guarantees
        st.guarantee_changes (pushedForD A st D) scope) (nth [] st.guarantees scope) := by
    intro h
    rw [← hG1, nth_mapIdxL, if_pos h]
  rw [nth_mapIdxL, hlenG1]
  by_cases hs : scope < st.guarantees.length
  · rw [if_pos hs]
    by_cases hn : nth false st.subscopeNotify scope = true
    · rw [guaranteeStep_pos _ _ _ _ _ _ hn, stepGuar_some]
      rw [updateGuarantees_fst_nth]
      rw [hrowG1 hs, guaranteeStep_pos _ _ _ _ _ _ hn, stepGuar_some]
      rw [updateGuarantees_fst_length]
      have hlenC : (nth [] C1 scope).length = (nth [] st.guarantee_changes scope).length := by
        rw [← hC1, nth_mapIdxL]
        by_cases hsc : scope < st.guarantee_changes.length
        · rw [if_pos hsc, guaranteeStep_pos _ _ _ _ _ _ hn, stepChanges_some]
          by_cases ha : ((updateGuarantees A (nth [] st.guarantees scope)
              (nth [] (pushedForD A st D) scope) (nth [] st.guarantee_changes scope)).2.any
              (fun c => !c.isEmpty)) = true
          · rw [if_pos ha, List.length_map, updateGuarantees_snd_length]
          · rw [if_neg ha, updateGuarantees_snd_length]
        · rw [if_neg hsc, nth_ge_length [] st.guarantee_changes scope (Nat.le_of_not_lt hsc)]
      rw [hlenC]
      rw [updateGuarantees_fst_nth]
      rw [nth2_map_negCM (pushedForD A st D) scope port]
      by_cases hp : port < (nth [] st.guarantees scope).length
      · rw [if_pos hp, if_pos hp]
        by_cases hpc : port < (nth [] st.guarantee_changes scope).length
        · rw [if_pos hpc, if_pos hpc, cmCount_cmUpdates, cmCount_cmUpdates, cmCount_neg]
          omega
        · rw [if_neg hpc, if_neg hpc]
      · rw [if_neg hp, nth_ge_length [] (nth [] st.guarantees scope) port
          (Nat.le_of_not_lt hp)]
    · have hn2 : nth false st.subscopeNotify scope = false := by
        cases h : nth false st.subscopeNotify scope
        · rfl
        · exact absurd h hn
      rw [guaranteeStep_not _ _ _ _ _ _ hn2, stepGuar_none, hrowG1 hs,
        guaranteeStep_not _ _ _ _ _ _ hn2, stepGuar_none]
  · rw [if_neg hs, nth_ge_length [] st.guarantees scope (Nat.le_of_not_lt hs)]

/-- C4 witness: the inverse round trip at a concrete one-child subgraph
with a `Local(0)` edge from the graph input to the child input. -/
theorem c4_witness :
    (∀ (scope port : Nat) (t : Nat × Nat),
      cmCount (nth [] (nth [] (Subgraph.pushExternalProgress natAlg
        (Subgraph.pushExternalProgress natAlg c4Example [[(5, 1)]]).1
        (negD [[(5, 1)]])).1.guarantees scope) port) t =
      cmCount (nth [] (nth [] c4Example.guarantees scope) port) t) ∧
    (Subgraph.pushExternalProgress natAlg
      (Subgraph.pushExternalProgress natAlg c4Example [[(5, 1)]]).1
      (negD [[(5, 1)]])).1.external_capability = c4Example.external_capability :=
  c4_push_external_inverse natAlg c4Example [[(5, 1)]]
    (by decide) (by decide) (by decide) (by decide) (by decide)

theorem mem_setNth {α : Type} (l : List α) (i : Nat) (b x : α) (h : x ∈ setNth l i b) :
    x ∈ l ∨ x = b := by
  induction l generalizing i with
  | nil => exact absurd h (List.not_mem_nil x)
  | cons a r ih =>
    cases i with
    | zero =>
      rcases List.mem_cons.mp h with h1 | h1
      · exact Or.inr h1
      · exact Or.inl (List.mem_cons_of_mem a h1)
    | succ i =>
      rcases List.mem_cons.mp h with h1 | h1
      · exact Or.inl (h1 ▸ List.mem_cons_self a r)
      · rcases ih i h1 with h2 | h2
        · exact Or.inl (List.mem_cons_of_mem a h2)
        · exact Or.inr h2

theorem nth_entries_ok {α : Type} (P : α → Prop) (l : List (List α))
    (h : ∀ v ∈ l, ∀ x ∈ v, P x) (i : Nat) : ∀ x ∈ nth [] l i, P x := by
  rcases nth_mem [] l i with hd | hm
  · rw [hd]
    intro x hx
    exact absurd hx (List.not_mem_nil x)
  · exact h _ hm

theorem nth2_entries_ok {α : Type} (P : α → Prop) (l : List (List (List α)))
    (h : ∀ v ∈ l, ∀ r ∈ v, ∀ x ∈ r, P x) (i j : Nat) :
    ∀ x ∈ nth [] (nth [] l i) j, P x := by
  rcases nth_mem [] l i with hd | hm
  · rw [hd]
    intro x hx
    rw [show nth [] ([] : List (List α)) j = [] from by cases j <;> rfl] at hx
    exact absurd hx (List.not_mem_nil x)
  · exact nth_entries_ok P (nth [] l i) (h _ hm) j

theorem setNth_ok {α : Type} (Q : α → Prop) (l : List α) (i : Nat) (b : α)
    (h : ∀ v ∈ l, Q v) (hb : Q b) : ∀ v ∈ setNth l i b, Q v := by
  intro v hv
  rcases mem_setNth l i b v hv with h1 | h1
  · exact h v h1
  · exact h1 ▸ hb

theorem try_to_add_cons_eq {S : Type} (leb : S → S → Bool) (t : Target) (ac : List S)
    (rest : List (Target × List S)) (target : Target) (s : S) (h : target = t) :
    try_to_add_summary leb ((t, ac) :: rest) target s =
      ((t, (acInsert leb ac s).1) :: rest, (acInsert leb ac s).2) := by
  unfold try_to_add_summary
  rw [if_pos h]

theorem try_to_add_cons_ne {S : Type} (leb : S → S → Bool) (t : Target) (ac : List S)
    (rest : List (Target × List S)) (target : Target) (s : S) (h : ¬target = t) :
    try_to_add_summary leb ((t, ac) :: rest) target s =
      ((t, ac) :: (try_to_add_summary leb rest target s).1,
       (try_to_add_summary leb rest target s).2) := by
  simp only [try_to_add_summary]
  rw [if_neg h]

theorem try_to_add_summary_ok {S : Type} (P : Target → Prop) (leb : S → S → Bool)
    (row : List (Target × List S)) (target : Target) (s : S)
    (hrow : ∀ e ∈ row, P e.1) (ht : P target) :
    ∀ e ∈ (try_to_add_summary leb row target s).1, P e.1 := by
  induction row with
  | nil =>
    intro e he
    rcases List.mem_cons.mp he with h1 | h1
    · rw [h1]
      exact ht
    · exact absurd h1 (List.not_mem_nil e)
  | cons p rest ih =>
    obtain ⟨t, ac⟩ := p
    intro e he
    by_cases h : target = t
    · rw [try_to_add_cons_eq leb t ac rest target s h] at he
      rcases List.mem_cons.mp he with h1 | h1
      · rw [h1]
        exact hrow (t, ac) (List.mem_cons_self _ _)
      · exact hrow e (List.mem_cons_of_mem _ h1)
    · rw [try_to_add_cons_ne leb t ac rest target s h] at he
      rcases List.mem_cons.mp he with h1 | h1
      · rw [h1]
        exact hrow (t, ac) (List.mem_cons_self _ _)
      · exact ih (fun e2 he2 => hrow e2 (List.mem_cons_of_mem _ he2)) e h1

theorem seedRow_ok {SO SI : Type} (notify : List Bool) (ds : Summary SO SI)
    (edges : List Target) :
    ∀ e ∈ seedRow notify ds edges, targetOkB notify e.1 = true := by
  intro e he
  unfold seedRow at he
  rcases List.mem_map.mp he with ⟨target, htm, hEq⟩
  rw [← hEq]
  exact (List.mem_filter.mp htm).2

theorem passSources_ok {TO TI SO SI : Type} [DecidableEq TO] [DecidableEq TI]
    [DecidableEq SO] [DecidableEq SI]
    (A : Alg TO TI SO SI) (g : Subgraph TO TI SO SI)
    (σ : List (List (List (Target × List (Summary SO SI)))) × Bool)
    (hσ : ∀ v ∈ σ.1, ∀ r ∈ v, ∀ e ∈ r, targetOkB g.subscopeNotify e.1 = true) :
    ∀ v ∈ (passSources A g σ).1, ∀ r ∈ v, ∀ e ∈ r,
      targetOkB g.subscopeNotify e.1 = true := by
  unfold passSources
  refine foldl_preserves (fun (σ2 : List (List (List (Target × List (Summary SO SI)))) × Bool) =>
    ∀ v ∈ σ2.1, ∀ r ∈ v, ∀ e ∈ r,
      targetOkB g.subscopeNotify e.1 = true) _ _ ?_ σ hσ
  intro b scope hb
  refine foldl_preserves (fun (σ2 : List (List (List (Target × List (Summary SO SI)))) × Bool) =>
    ∀ v ∈ σ2.1, ∀ r ∈ v, ∀ e ∈ r,
      targetOkB g.subscopeNotify e.1 = true) _ _ ?_ b hb
  intro b2 output hb2
  refine foldl_preserves (fun (σ2 : List (List (List (Target × List (Summary SO SI)))) × Bool) =>
    ∀ v ∈ σ2.1, ∀ r ∈ v, ∀ e ∈ r,
      targetOkB g.subscopeNotify e.1 = true) _ _ ?_ b2 hb2
  intro b3 target hb3
  refine foldl_preserves (fun (σ2 : List (List (List (Target × List (Summary SO SI)))) × Bool) =>
    ∀ v ∈ σ2.1, ∀ r ∈ v, ∀ e ∈ r,
      targetOkB g.subscopeNotify e.1 = true) _ _ ?_ b3 hb3
  intro b4 ns hb4
  obtain ⟨nsrc, nsum⟩ := ns
  cases nsrc with
  | GraphInput i => exact hb4
  | ScopeOutput next_scope next_output =>
    have hreach := nth2_entries_ok (fun (e : Target × List (Summary SO SI)) => targetOkB g.subscopeNotify e.1 = true)
      b4.1 hb4 next_scope next_output
    refine foldl_preserves_mem (fun (σ2 : List (List (List (Target × List (Summary SO SI)))) × Bool) =>
    ∀ v ∈ σ2.1, ∀ r ∈ v, ∀ e ∈ r,
      targetOkB g.subscopeNotify e.1 = true) _ _ ?_ b4 hb4
    intro b5 row hrowm hb5
    refine foldl_preserves (fun (σ2 : List (List (List (Target × List (Summary SO SI)))) × Bool) =>
    ∀ v ∈ σ2.1, ∀ r ∈ v, ∀ e ∈ r,
      targetOkB g.subscopeNotify e.1 = true) _ _ ?_ b5 hb5
    intro b6 summary hb6
    refine setNth_ok _ b6.1 scope _ hb6 ?_
    refine setNth_ok _ (nth [] b6.1 scope) output _
      (nth_entries_ok _ b6.1 hb6 scope) ?_
    exact try_to_add_summary_ok (fun tg => targetOkB g.subscopeNotify tg = true) (summaryLeB A) _ row.1 _
      (nth2_entries_ok _ b6.1 hb6 scope output) (hreach row hrowm)

theorem passInputs_ok {TO TI SO SI : Type} [DecidableEq TO] [DecidableEq TI]
    [DecidableEq SO] [DecidableEq SI]
    (A : Alg TO TI SO SI) (g : Subgraph TO TI SO SI)
    (S : List (List (List (Target × List (Summary SO SI)))))
    (hS : ∀ v ∈ S, ∀ r ∈ v, ∀ e ∈ r, targetOkB g.subscopeNotify e.1 = true)
    (σ : List (List (Target × List (Summary SO SI))) × Bool)
    (hσ : ∀ r ∈ σ.1, ∀ e ∈ r, targetOkB g.subscopeNotify e.1 = true) :
    ∀ r ∈ (passInputs A g S σ).1, ∀ e ∈ r,
      targetOkB g.subscopeNotify e.1 = true := by
  unfold passInputs
  refine foldl_preserves (fun (σ2 : List (List (Target × List (Summary SO SI))) × Bool) =>
    ∀ r ∈ σ2.1, ∀ e ∈ r,
      targetOkB g.subscopeNotify e.1 = true) _ _ ?_ σ hσ
  intro b input hb
  refine foldl_preserves (fun (σ2 : List (List (Target × List (Summary SO SI))) × Bool) =>
    ∀ r ∈ σ2.1, ∀ e ∈ r,
      targetOkB g.subscopeNotify e.1 = true) _ _ ?_ b hb
  intro b2 target hb2
  refine foldl_preserves (fun (σ2 : List (List (Target × List (Summary SO SI))) × Bool) =>
    ∀ r ∈ σ2.1, ∀ e ∈ r,
      targetOkB g.subscopeNotify e.1 = true) _ _ ?_ b2 hb2
  intro b3 ns hb3
  obtain ⟨nsrc, nsum⟩ := ns
  cases nsrc with
  | GraphInput i => exact hb3
  | ScopeOutput next_scope next_output =>
    have hreach := nth2_entries_ok (fun (e : Target × List (Summary SO SI)) => targetOkB g.subscopeNotify e.1 = true)
      S hS next_scope next_output
    refine foldl_preserves_mem (fun (σ2 : List (List (Target × List (Summary SO SI))) × Bool) =>
    ∀ r ∈ σ2.1, ∀ e ∈ r,
      targetOkB g.subscopeNotify e.1 = true) _ _ ?_ b3 hb3
    intro b4 row hrowm hb4
    refine foldl_preserves (fun (σ2 : List (List (Target × List (Summary SO SI))) × Bool) =>
    ∀ r ∈ σ2.1, ∀ e ∈ r,
      targetOkB g.subscopeNotify e.1 = true) _ _ ?_ b4 hb4
    intro b5 summary hb5
    refine setNth_ok _ b5.1 input _ hb5 ?_
    exact try_to_add_summary_ok (fun tg => targetOkB g.subscopeNotify tg = true) (summaryLeB A) _ row.1 _
      (nth_entries_ok _ b5.1 hb5 input) (hreach row hrowm)

theorem saturate_ok {TO TI SO SI : Type} [DecidableEq TO] [DecidableEq TI]
    [DecidableEq SO] [DecidableEq SI]
    (A : Alg TO TI SO SI) (g : Subgraph TO TI SO SI) (fuel : Nat)
    (S : List (List (List (Target × List (Summary SO SI)))))
    (I : List (List (Target × List (Summary SO SI))))
    (hS : ∀ v ∈ S, ∀ r ∈ v, ∀ e ∈ r, targetOkB g.subscopeNotify e.1 = true)
    (hI : ∀ r ∈ I, ∀ e ∈ r, targetOkB g.subscopeNotify e.1 = true) :
    (∀ v ∈ (saturate A g fuel S I).1, ∀ r ∈ v, ∀ e ∈ r,
      targetOkB g.subscopeNotify e.1 = true) ∧
    (∀ r ∈ (saturate A g fuel S I).2, ∀ e ∈ r,
      targetOkB g.subscopeNotify e.1 = true) := by
  induction fuel generalizing S I with
  | zero => exact ⟨hS, hI⟩
  | succ fuel ih =>
    have hS2 := passSources_ok A g (S, false) hS
    have hI2 := passInputs_ok A g (passSources A g (S, false)).1 hS2 (I, false) hI
    have hsat : saturate A g (fuel + 1) S I =
        if (passSources A g (S, false)).2 ||
            (passInputs A g (passSources A g (S, false)).1 (I, false)).2
        then saturate A g fuel (passSources A g (S, false)).1
          (passInputs A g (passSources A g (S, false)).1 (I, false)).1
        else ((passSources A g (S, false)).1,
          (passInputs A g (passSources A g (S, false)).1 (I, false)).1) := rfl
    rw [hsat]
    by_cases h : ((passSources A g (S, false)).2 ||
        (passInputs A g (passSources A g (S, false)).1 (I, false)).2) = true
    · rw [if_pos h]
      exact ih _ _ hS2 hI2
    · rw [if_neg h]
      exact ⟨hS2, hI2⟩

/-- C6: after `set_summaries` completes, no entry of `source_summaries`,
`input_summaries` or `target_summaries` has as its target a
`ScopeInput(g, p)` whose child does not want notifications: the seeded
direct edges are filtered, every target added during the worklist
saturation comes from an already-filtered row, and the final
`target_summaries` population draws its targets from the saturated
source table. -/
theorem c6_set_summaries_notify_filter {TO TI SO SI : Type}
    [DecidableEq TO] [DecidableEq TI] [DecidableEq SO] [DecidableEq SI]
    (A : Alg TO TI SO SI) (fuel : Nat) (g : Subgraph TO TI SO SI) :
    (∀ v ∈ (Subgraph.set_summaries A fuel g).source_summaries, ∀ r ∈ v, ∀ e ∈ r,
      targetOkB g.subscopeNotify e.1 = true) ∧
    (∀ r ∈ (Subgraph.set_summaries A fuel g).input_summaries, ∀ e ∈ r,
      targetOkB g.subscopeNotify e.1 = true) ∧
    (∀ v ∈ (Subgraph.set_summaries A fuel g).target_summaries, ∀ r ∈ v, ∀ e ∈ r,
      targetOkB g.subscopeNotify e.1 = true) := by
  have hseedS : ∀ v ∈ (idx g.numScopes).map (fun scope =>
      (idx (nth 0 g.subscopeOutputs scope)).map (fun output =>
        seedRow g.subscopeNotify g.default_summary
          (nth [] (nth [] g.scope_edges scope) output))),
      ∀ r ∈ v, ∀ e ∈ r, targetOkB g.subscopeNotify e.1 = true := by
    intro v hv r hr
    rcases List.mem_map.mp hv with ⟨scope, _, hEq⟩
    rw [← hEq] at hr
    rcases List.mem_map.mp hr with ⟨output, _, hEq2⟩
    rw [← hEq2]
    exact seedRow_ok _ _ _
  have hseedI : ∀ r ∈ (idx g.inputs).map (fun input =>
      seedRow g.subscopeNotify g.default_summary (nth [] g.input_edges input)),
      ∀ e ∈ r, targetOkB g.subscopeNotify e.1 = true := by
    intro r hr
    rcases List.mem_map.mp hr with ⟨input, _, hEq⟩
    rw [← hEq]
    exact seedRow_ok _ _ _
  have hsat := saturate_ok A g fuel _ _ hseedS hseedI
  refine ⟨hsat.1, hsat.2, ?_⟩
  intro v hv r hr
  rcases List.mem_map.mp hv with ⟨scope, _, hEq⟩
  rw [← hEq] at hr
  rcases List.mem_map.mp hr with ⟨input, _, hEq2⟩
  rw [← hEq2]
  refine foldl_preserves (fun (acc : List (Target × List (Summary SO SI))) =>
    ∀ e ∈ acc, targetOkB g.subscopeNotify e.1 = true)
    _ _ ?_ [] (fun e he => absurd he (List.not_mem_nil e))
  intro b ns hb
  obtain ⟨nsrc, nsum⟩ := ns
  cases nsrc with
  | GraphInput i => exact hb
  | ScopeOutput next_scope next_output =>
    have hreach := nth2_entries_ok (fun (e : Target × List (Summary SO SI)) => targetOkB g.subscopeNotify e.1 = true)
      _ hsat.1 next_scope next_output
    refine foldl_preserves_mem (fun (acc : List (Target × List (Summary SO SI))) =>
    ∀ e ∈ acc, targetOkB g.subscopeNotify e.1 = true) _ _ ?_ b hb
    intro b2 row hrowm hb2
    refine foldl_preserves (fun (acc : List (Target × List (Summary SO SI))) =>
    ∀ e ∈ acc, targetOkB g.subscopeNotify e.1 = true) _ _ ?_ b2 hb2
    intro b3 summary hb3
    exact try_to_add_summary_ok (fun tg => targetOkB g.subscopeNotify tg = true) (summaryLeB A) _ row.1 _ hb3 (hreach row hrowm)

theorem nth_all_nil {α : Type} (l : List (List α)) (h : AllNil1 l) (i : Nat) :
    nth [] l i = [] := by
  rcases nth_mem [] l i with h1 | h1
  · exact h1
  · exact h _ h1

theorem nth2_all_nil {α : Type} (l : List (List (List α))) (h : AllNil2 l) (i j : Nat) :
    nth [] (nth [] l i) j = [] := by
  rcases nth_mem [] l i with h1 | h1
  · rw [h1]
    cases j <;> rfl
  · exact nth_all_nil _ (h _ h1) j

theorem elemB_of_mem {T : Type} [DecidableEq T] (l : List T) (a : T) (h : a ∈ l) :
    elemB l a = true := by
  unfold elemB
  rw [List.any_eq_true]
  exact ⟨a, h, by simp⟩

theorem filter_nones {α : Type} (p : α → Bool) (l : List α)
    (h : ∀ a ∈ l, p a = false) : l.filter p = [] := by
  induction l with
  | nil => rfl
  | cons a r ih =>
    rw [List.filter_cons, h a (List.mem_cons_self a r), if_neg Bool.false_ne_true]
    exact ih (fun x hx => h x (List.mem_cons_of_mem a hx))

theorem maUpdateIterAnd_nil {T : Type} [DecidableEq T] (ltb : T → T → Bool)
    (m : List (T × Int)) : maUpdateIterAnd ltb m [] = (m, []) := by
  have hm : cmUpdates m ([] : List (T × Int)) = m := rfl
  have h1 : (maFrontier ltb m).filter (fun t => !(elemB (maFrontier ltb m) t)) = [] := by
    refine filter_nones _ _ ?_
    intro a ha
    show (!(elemB (maFrontier ltb m) a)) = false
    rw [elemB_of_mem _ a ha]
    rfl
  unfold maUpdateIterAnd
  simp only [hm, h1, List.map_nil, List.append_nil]

theorem foldl_id {α β : Type} (l : List α) (f : β → α → β) (b : β)
    (h : ∀ a ∈ l, f b a = b) : l.foldl f b = b := by
  induction l with
  | nil => rfl
  | cons a r ih =>
    show List.foldl f (f b a) r = b
    rw [h a (List.mem_cons_self a r)]
    exact ih (fun x hx => h x (List.mem_cons_of_mem a hx))

theorem foldl_trace {α β γ : Type} (l : List α) (F : β → α → β) (m : α → γ)
    (b : β) (tr : List γ) :
    (l.foldl (fun a x => (F a.1 x, a.2 ++ [m x])) (b, tr)).2 = tr ++ l.map m := by
  induction l generalizing b tr with
  | nil => simp
  | cons a r ih =>
    show (r.foldl _ (F b a, tr ++ [m a])).2 = tr ++ (a :: r).map m
    rw [ih]
    simp

theorem pullInputStep_nil {TO TI SO SI : Type} [DecidableEq TO] [DecidableEq TI]
    (A : Alg TO TI SO SI) (st : Subgraph TO TI SO SI)
    (mc mp : List (List (TO × Int))) (input : Nat)
    (h : nth [] st.input_messages input = []) :
    pullInputStep A (st, mc, mp) input = (st, mc, mp) := by
  unfold pullInputStep
  simp only [h, List.length_nil]
  rw [if_neg (Nat.lt_irrefl 0)]

theorem pullStep1_nil {TO TI SO SI : Type} [DecidableEq TO] [DecidableEq TI]
    (A : Alg TO TI SO SI) (g : Subgraph TO TI SO SI)
    (mc mp : List (List (TO × Int)))
    (HM : AllNil1 g.input_messages) :
    pullStep1 A g mc mp = (g, mc, mp) := by
  unfold pullStep1
  exact foldl_id _ _ _ (fun a _ => pullInputStep_nil A g mc mp a (nth_all_nil _ HM a))

theorem pullChildOut_nil {TO TI SO SI : Type} [DecidableEq TO] [DecidableEq TI]
    (A : Alg TO TI SO SI) (i : Nat) (st : Subgraph TO TI SO SI)
    (mp : List (List (TO × Int))) (output : Nat)
    (hp : nth [] (nth [] st.producedBuf i) output = [])
    (hg : nth [] (nth [] st.progressBuf i) output = []) :
    pullChildOut A i (st, mp) output = (st, mp) := by
  unfold pullChildOut
  simp only [hp, List.length_nil]
  rw [if_neg (Nat.lt_irrefl 0)]
  simp only [hg, List.length_nil]
  rw [if_neg (Nat.lt_irrefl 0)]

theorem pullChildIn_nil {TO TI SO SI : Type} [DecidableEq TO] [DecidableEq TI]
    (A : Alg TO TI SO SI) (i : Nat) (st : Subgraph TO TI SO SI) (input : Nat)
    (hc : nth [] (nth [] st.consumedBuf i) input = []) :
    pullChildIn A i st input = st := by
  unfold pullChildIn
  simp only [hc, List.length_nil]
  rw [if_neg (Nat.lt_irrefl 0)]

theorem pullStep2Child_nil {TO TI SO SI : Type} [DecidableEq TO] [DecidableEq TI]
    (A : Alg TO TI SO SI)
    (dep : List (List ((TO × TI) × Int)) × List (List ((TO × TI) × Int)) ×
      List (List ((TO × TI) × Int)))
    (i : Nat) (acc : Subgraph TO TI SO SI × List (List (TO × Int)))
    (hd1 : AllNil1 dep.1) (hd2 : AllNil1 dep.2.1) (hd3 : AllNil1 dep.2.2)
    (hb1 : AllNil2 acc.1.progressBuf) (hb2 : AllNil2 acc.1.consumedBuf)
    (hb3 : AllNil2 acc.1.producedBuf) :
    pullStep2Child A dep i acc = (installBufs acc.1 i dep, acc.2) := by
  have hpb : AllNil2 (installBufs acc.1 i dep).progressBuf :=
    setNth_ok _ _ _ _ hb1 hd1
  have hcb : AllNil2 (installBufs acc.1 i dep).consumedBuf :=
    setNth_ok _ _ _ _ hb2 hd2
  have hdb : AllNil2 (installBufs acc.1 i dep).producedBuf :=
    setNth_ok _ _ _ _ hb3 hd3
  have hout : (idx (nth 0 (installBufs acc.1 i dep).subscopeOutputs i)).foldl
      (pullChildOut A i) (installBufs acc.1 i dep, acc.2) =
      (installBufs acc.1 i dep, acc.2) :=
    foldl_id _ _ _ (fun a _ => pullChildOut_nil A i _ acc.2 a
      (nth2_all_nil _ hdb i a) (nth2_all_nil _ hpb i a))
  have hin : (idx (nth 0 (installBufs acc.1 i dep).subscopeInputs i)).foldl
      (pullChildIn A i) (installBufs acc.1 i dep) = installBufs acc.1 i dep :=
    foldl_id _ _ _ (fun a _ => pullChildIn_nil A i _ a (nth2_all_nil _ hcb i a))
  unfold pullStep2Child
  simp only [hout, hin]

theorem pullStep2_inv {TO TI SO SI : Type} [DecidableEq TO] [DecidableEq TI]
    (A : Alg TO TI SO SI)
    (deposits : Nat → List (List ((TO × TI) × Int)) × List (List ((TO × TI) × Int)) ×
      List (List ((TO × TI) × Int)))
    (n : Nat) (st : Subgraph TO TI SO SI) (mpv : List (List (TO × Int)))
    (HD : ∀ j, AllNil1 (deposits j).1 ∧ AllNil1 (deposits j).2.1 ∧
      AllNil1 (deposits j).2.2)
    (HB1 : AllNil2 st.progressBuf) (HB2 : AllNil2 st.consumedBuf)
    (HB3 : AllNil2 st.producedBuf) :
    (pullStep2 A deposits n (st, mpv)).1.1.pointstamps = st.pointstamps ∧
    (pullStep2 A deposits n (st, mpv)).1.2 = mpv := by
  have key : ∀ (b : (Subgraph TO TI SO SI × List (List (TO × Int))) ×
      List (ChildCall TO TI SO SI)) (a : Nat),
      (b.1.1.pointstamps = st.pointstamps ∧ AllNil2 b.1.1.progressBuf ∧
        AllNil2 b.1.1.consumedBuf ∧ AllNil2 b.1.1.producedBuf ∧ b.1.2 = mpv) →
      ((pullStep2Child A (deposits a) a b.1,
          b.2 ++ [ChildCall.pullInternalProgress a]).1.1.pointstamps = st.pointstamps ∧
        AllNil2 (pullStep2Child A (deposits a) a b.1,
          b.2 ++ [ChildCall.pullInternalProgress a]).1.1.progressBuf ∧
        AllNil2 (pullStep2Child A (deposits a) a b.1,
          b.2 ++ [ChildCall.pullInternalProgress a]).1.1.consumedBuf ∧
        AllNil2 (pullStep2Child A (deposits a) a b.1,
          b.2 ++ [ChildCall.pullInternalProgress a]).1.1.producedBuf ∧
        (pullStep2Child A (deposits a) a b.1,
          b.2 ++ [ChildCall.pullInternalProgress a]).1.2 = mpv) := by
    intro b a hb
    obtain ⟨⟨stv, mpc⟩, tr⟩ := b
    obtain ⟨h1, h2, h3, h4, h5⟩ := hb
    obtain ⟨hd1, hd2, hd3⟩ := HD a
    have e := pullStep2Child_nil A (deposits a) a (stv, mpc) hd1 hd2 hd3 h2 h3 h4
    refine ⟨?_, ?_, ?_, ?_, ?_⟩
    · show (pullStep2Child A (deposits a) a (stv, mpc)).1.pointstamps = st.pointstamps
      rw [e]
      exact h1
    · show AllNil2 (pullStep2Child A (deposits a) a (stv, mpc)).1.progressBuf
      rw [e]
      exact setNth_ok _ _ _ _ h2 hd1
    · show AllNil2 (pullStep2Child A (deposits a) a (stv, mpc)).1.consumedBuf
      rw [e]
      exact setNth_ok _ _ _ _ h3 hd2
    · show AllNil2 (pullStep2Child A (deposits a) a (stv, mpc)).1.producedBuf
      rw [e]
      exact setNth_ok _ _ _ _ h4 hd3
    · show (pullStep2Child A (deposits a) a (stv, mpc)).2 = mpv
      rw [e]
      exact h5
  have h := foldl_preserves
    (fun (acc : (Subgraph TO TI SO SI × List (List (TO × Int))) ×
        List (ChildCall TO TI SO SI)) =>
      acc.1.1.pointstamps = st.pointstamps ∧ AllNil2 acc.1.1.progressBuf ∧
        AllNil2 acc.1.1.consumedBuf ∧ AllNil2 acc.1.1.producedBuf ∧ acc.1.2 = mpv)
    (idx n)
    (fun acc i =>
      (pullStep2Child A (deposits i) i acc.1,
        acc.2 ++ [ChildCall.pullInternalProgress i]))
    key ((st, mpv), []) ⟨rfl, HB1, HB2, HB3, rfl⟩
  exact ⟨h.1, h.2.2.2.2⟩

theorem pullStep2_trace {TO TI SO SI : Type} [DecidableEq TO] [DecidableEq TI]
    (A : Alg TO TI SO SI)
    (deposits : Nat → List (List ((TO × TI) × Int)) × List (List ((TO × TI) × Int)) ×
      List (List ((TO × TI) × Int)))
    (n : Nat) (acc0 : Subgraph TO TI SO SI × List (List (TO × Int))) :
    (pullStep2 A deposits n acc0).2 =
      (idx n).map (fun i => ChildCall.pullInternalProgress i) := by
  have h := foldl_trace (idx n)
    (fun (p : Subgraph TO TI SO SI × List (List (TO × Int))) (i : Nat) =>
      pullStep2Child A (deposits i) i p)
    (fun i => (ChildCall.pullInternalProgress i : ChildCall TO TI SO SI))
    acc0 []
  exact h

theorem pullOutStep_nil {TO TI SO SI : Type} [DecidableEq TO] [DecidableEq TI]
    (A : Alg TO TI SO SI) (st : Subgraph TO TI SO SI)
    (f : List (List (TO × Int))) (o : Nat)
    (h : nth [] st.pointstamps.output_pushed o = []) :
    pullOutStep A (st, f) o = (st, f) := by
  unfold pullOutStep
  simp only [h, List.map_nil, maUpdateIterAnd_nil, List.foldl_nil, setNth_nth]

theorem pullStep4_nil {TO TI SO SI : Type} [DecidableEq TO] [DecidableEq TI]
    (A : Alg TO TI SO SI) (st : Subgraph TO TI SO SI)
    (fp : List (List (TO × Int)))
    (H : AllNil1 st.pointstamps.output_pushed) :
    pullStep4 A st fp = (st, fp) := by
  unfold pullStep4
  exact foldl_id _ _ _ (fun a _ => pullOutStep_nil A st fp a (nth_all_nil _ H a))

theorem pullStep4_snd_nil {TO TI SO SI : Type} [DecidableEq TO] [DecidableEq TI]
    (A : Alg TO TI SO SI) (st : Subgraph TO TI SO SI)
    (fp : List (List (TO × Int)))
    (H : AllNil1 st.pointstamps.output_pushed) :
    (pullStep4 A st fp).2 = fp := by
  rw [pullStep4_nil A st fp H]

theorem propScopes_nil {TO TI SO SI : Type} [DecidableEq TO] [DecidableEq TI]
    (A : Alg TO TI SO SI) (n : Nat) (sIn sOut : List Nat)
    (tS sS : List (List (List (Target × List (Summary SO SI)))))
    (tc sc : List (List (List ((TO × TI) × Int))))
    (htc : AllNil2 tc) (hsc : AllNil2 sc)
    (p : List (List (List ((TO × TI) × Int))) × List (List ((TO × TI) × Int))) :
    propScopes A n sIn sOut tS sS tc sc p = p := by
  unfold propScopes
  refine foldl_id _ _ _ ?_
  intro a _
  have hin : (idx (nth 0 sIn a)).foldl (fun x input =>
      propagateCM A (nth [] (nth [] tS a) input) (nth [] (nth [] tc a) input) x) p = p :=
    foldl_id _ _ _ (fun i _ => by
      show propagateCM A (nth [] (nth [] tS a) i) (nth [] (nth [] tc a) i) p = p
      rw [nth2_all_nil tc htc a i]
      rfl)
  show (idx (nth 0 sOut a)).foldl (fun x output =>
      propagateCM A (nth [] (nth [] sS a) output) (nth [] (nth [] sc a) output) x)
    ((idx (nth 0 sIn a)).foldl (fun x input =>
      propagateCM A (nth [] (nth [] tS a) input) (nth [] (nth [] tc a) input) x) p) = p
  rw [hin]
  exact foldl_id _ _ _ (fun o _ => by
    show propagateCM A (nth [] (nth [] sS a) o) (nth [] (nth [] sc a) o) p = p
    rw [nth2_all_nil sc hsc a o]
    rfl)

theorem propInputs_nil {TO TI SO SI : Type} [DecidableEq TO] [DecidableEq TI]
    (A : Alg TO TI SO SI) (numIn : Nat)
    (iS : List (List (Target × List (Summary SO SI))))
    (ic : List (List ((TO × TI) × Int))) (hic : AllNil1 ic)
    (p : List (List (List ((TO × TI) × Int))) × List (List ((TO × TI) × Int))) :
    propInputs A numIn iS ic p = p := by
  unfold propInputs
  refine foldl_id _ _ _ ?_
  intro i _
  show propagateCM A (nth [] iS i) (nth [] ic i) p = p
  rw [nth_all_nil ic hic i]
  rfl

theorem pushedAfter_nil {TO TI SO SI : Type} [DecidableEq TO] [DecidableEq TI]
    (A : Alg TO TI SO SI) (n : Nat) (sIn sOut : List Nat)
    (tS sS : List (List (List (Target × List (Summary SO SI)))))
    (iS : List (List (Target × List (Summary SO SI))))
    (numIn : Nat) (pc : PointstampCounter (TO × TI))
    (H1 : AllNil2 pc.source_counts) (H2 : AllNil2 pc.target_counts)
    (H3 : AllNil1 pc.input_counts) :
    pushedAfter A n sIn sOut tS sS iS numIn pc =
      (pc.target_pushed, pc.output_pushed) := by
  unfold pushedAfter
  rw [propScopes_nil A n sIn sOut tS sS pc.target_counts pc.source_counts H2 H1]
  exact propInputs_nil A numIn iS pc.input_counts H3 _

theorem pushPT_output_pushed_nil {TO TI SO SI : Type} [DecidableEq TO] [DecidableEq TI]
    (A : Alg TO TI SO SI) (g2 : Subgraph TO TI SO SI)
    (pc : PointstampCounter (TO × TI))
    (hpc : g2.pointstamps = pc)
    (H1 : AllNil2 pc.source_counts) (H2 : AllNil2 pc.target_counts)
    (H3 : AllNil1 pc.input_counts) (H5 : AllNil1 pc.output_pushed) :
    AllNil1 (Subgraph.pushPointstampsToTargets A g2).pointstamps.output_pushed := by
  show AllNil1 (pushedAfter A g2.numScopes g2.subscopeInputs g2.subscopeOutputs
    g2.target_summaries g2.source_summaries g2.input_summaries g2.inputs
    g2.pointstamps).2
  rw [hpc, pushedAfter_nil A _ _ _ _ _ _ _ pc H1 H2 H3]
  exact H5

/-- C5: if every shared `input_messages` mailbox is empty, every child's
`pull_internal_progress` leaves its progress, consumed and produced
buffers empty, the buffers were empty beforehand, and the pointstamp
counter holds no counts, then `Subgraph::pull_internal_progress` appends
no entries to `frontier_progress`, `messages_consumed` or
`messages_produced`. -/
theorem c5_quiet_pull_emits_nothing {TO TI SO SI : Type}
    [DecidableEq TO] [DecidableEq TI]
    (A : Alg TO TI SO SI) (g : Subgraph TO TI SO SI)
    (deposits : Nat → List (List ((TO × TI) × Int)) × List (List ((TO × TI) × Int)) ×
      List (List ((TO × TI) × Int)))
    (fp mc mp : List (List (TO × Int)))
    (HM : AllNil1 g.input_messages)
    (HD : ∀ j, AllNil1 (deposits j).1 ∧ AllNil1 (deposits j).2.1 ∧
      AllNil1 (deposits j).2.2)
    (HB1 : AllNil2 g.progressBuf) (HB2 : AllNil2 g.consumedBuf)
    (HB3 : AllNil2 g.producedBuf)
    (H1 : AllNil2 g.pointstamps.source_counts)
    (H2 : AllNil2 g.pointstamps.target_counts)
    (H3 : AllNil1 g.pointstamps.input_counts)
    (H5 : AllNil1 g.pointstamps.output_pushed) :
    (Subgraph.pull_internal_progress A g deposits fp mc mp).frontier_progress = fp ∧
    (Subgraph.pull_internal_progress A g deposits fp mc mp).messages_consumed = mc ∧
    (Subgraph.pull_internal_progress A g deposits fp mc mp).messages_produced = mp := by
  have hs1 : pullStep1 A g mc mp = (g, mc, mp) := pullStep1_nil A g mc mp HM
  have hinv := pullStep2_inv A deposits g.numScopes g mp HD HB1 HB2 HB3
  have hR : (pullStep2 A deposits g.numScopes
      ((pullStep1 A g mc mp).1, (pullStep1 A g mc mp).2.2)).1.1.pointstamps
      = g.pointstamps := by
    rw [hs1]
    exact hinv.1
  refine ⟨?_, ?_, ?_⟩
  · exact pullStep4_snd_nil A _ fp
      (pushPT_output_pushed_nil A _ g.pointstamps hR H1 H2 H3 H5)
  · change (pullStep1 A g mc mp).2.1 = mc
    rw [hs1]
  · change (pullStep2 A deposits g.numScopes
      ((pullStep1 A g mc mp).1, (pullStep1 A g mc mp).2.2)).1.2 = mp
    rw [hs1]
    exact hinv.2

/-- C5 witness: the quiet pull on the concrete quiescent one-child
subgraph, with empty deposits and empty output vectors. -/
theorem c5_witness :
    (Subgraph.pull_internal_progress natAlg c4Example c10Dep [] [] []).frontier_progress
      = [] ∧
    (Subgraph.pull_internal_progress natAlg c4Example c10Dep [] [] []).messages_consumed
      = [] ∧
    (Subgraph.pull_internal_progress natAlg c4Example c10Dep [] [] []).messages_produced
      = [] :=
  c5_quiet_pull_emits_nothing natAlg c4Example c10Dep [] [] []
    (by decide)
    (fun j => ⟨fun b hb => absurd hb (List.not_mem_nil b),
      fun b hb => absurd hb (List.not_mem_nil b),
      fun b hb => absurd hb (List.not_mem_nil b)⟩)
    (by decide) (by decide) (by decide) (by decide) (by decide) (by decide) (by decide)

theorem mem_keys_cmUpdate {T : Type} [DecidableEq T] (m : List (T × Int)) (t : T)
    (v : Int) (x : T) (h : x ∈ (cmUpdate m t v).map Prod.fst) :
    x ∈ m.map Prod.fst ∨ x = t := by
  induction m with
  | nil =>
    simp only [cmUpdate] at h
    by_cases hv : v = 0
    · rw [if_pos hv] at h
      exact absurd h (by simp)
    · rw [if_neg hv] at h
      simp at h
      exact Or.inr h
  | cons p rest ih =>
    obtain ⟨u, c⟩ := p
    simp only [cmUpdate] at h
    by_cases hu : u = t
    · rw [if_pos hu] at h
      by_cases hc : c + v = 0
      · rw [if_pos hc] at h
        exact Or.inl (by simp only [List.map_cons]; exact List.mem_cons_of_mem u h)
      · rw [if_neg hc] at h
        simp only [List.map_cons] at h
        rcases List.mem_cons.mp h with h1 | h1
        · exact Or.inl (by simp only [List.map_cons]; rw [h1]; exact List.mem_cons_self u _)
        · exact Or.inl (by simp only [List.map_cons]; exact List.mem_cons_of_mem u h1)
    · rw [if_neg hu] at h
      simp only [List.map_cons] at h
      rcases List.mem_cons.mp h with h1 | h1
      · exact Or.inl (by simp only [List.map_cons]; rw [h1]; exact List.mem_cons_self u _)
      · rcases ih h1 with h2 | h2
        · exact Or.inl (by simp only [List.map_cons]; exact List.mem_cons_of_mem u h2)
        · exact Or.inr h2

theorem cmKeysNodup_cmUpdate {T : Type} [DecidableEq T] (m : List (T × Int)) (t : T)
    (v : Int) (h : cmKeysNodup m) : cmKeysNodup (cmUpdate m t v) := by
  induction m with
  | nil =>
    show ((cmUpdate [] t v).map Prod.fst).Nodup
    simp only [cmUpdate]
    by_cases hv : v = 0
    · rw [if_pos hv]
      exact List.nodup_nil
    · rw [if_neg hv]
      simp
  | cons p rest ih =>
    obtain ⟨u, c⟩ := p
    have h2 : u ∉ rest.map Prod.fst ∧ (rest.map Prod.fst).Nodup :=
      List.nodup_cons.mp h
    show ((cmUpdate ((u, c) :: rest) t v).map Prod.fst).Nodup
    simp only [cmUpdate]
    by_cases hu : u = t
    · rw [if_pos hu]
      by_cases hc : c + v = 0
      · rw [if_pos hc]
        exact h2.2
      · rw [if_neg hc]
        show (u :: rest.map Prod.fst).Nodup
        exact List.nodup_cons.mpr h2
    · rw [if_neg hu]
      show (u :: (cmUpdate rest t v).map Prod.fst).Nodup
      rw [List.nodup_cons]
      refine ⟨?_, ih h2.2⟩
      intro hmem
      rcases mem_keys_cmUpdate rest t v u hmem with h3 | h3
      · exact h2.1 h3
      · exact hu h3

theorem cmKeysNodup_foldl {T : Type} [DecidableEq T] (l : List (T × Int))
    (m : List (T × Int)) (h : cmKeysNodup m) :
    cmKeysNodup (l.foldl (fun cm e => cmUpdate cm e.1 e.2) m) :=
  foldl_preserves cmKeysNodup l _ (fun b a hb => cmKeysNodup_cmUpdate b a.1 a.2 hb) m h

theorem pullOutStep_nodup {TO TI SO SI : Type} [DecidableEq TO] [DecidableEq TI]
    (A : Alg TO TI SO SI) (acc : Subgraph TO TI SO SI × List (List (TO × Int)))
    (o : Nat) (h : ∀ b ∈ acc.2, cmKeysNodup b) :
    ∀ b ∈ (pullOutStep A acc o).2, cmKeysNodup b := by
  intro b hb
  have hb2 : b ∈ setNth acc.2 o
      ((maUpdateIterAnd (toLtB A) (nth [] acc.1.external_capability o)
        ((nth [] acc.1.pointstamps.output_pushed o).map (fun p => (p.1.1, p.2)))).2.foldl
        (fun cm e => cmUpdate cm e.1 e.2) (nth [] acc.2 o)) := hb
  rcases mem_setNth _ _ _ _ hb2 with h1 | h1
  · exact h b h1
  · rw [h1]
    refine cmKeysNodup_foldl _ _ ?_
    rcases nth_mem [] acc.2 o with h2 | h2
    · rw [h2]
      exact List.nodup_nil
    · exact h _ h2

theorem pullStep4_nodup {TO TI SO SI : Type} [DecidableEq TO] [DecidableEq TI]
    (A : Alg TO TI SO SI) (st : Subgraph TO TI SO SI) (fp : List (List (TO × Int)))
    (h : ∀ b ∈ fp, cmKeysNodup b) :
    ∀ b ∈ (pullStep4 A st fp).2, cmKeysNodup b := by
  unfold pullStep4
  exact foldl_preserves
    (fun (acc : Subgraph TO TI SO SI × List (List (TO × Int))) =>
      ∀ b ∈ acc.2, cmKeysNodup b)
    (idx st.outputs) (pullOutStep A)
    (fun b a hb => pullOutStep_nodup A b a hb) (st, fp) h

theorem mem_idxFrom (i : Nat) : ∀ (k n : Nat), k ≤ i → i < k + n → i ∈ idxFrom k n := by
  intro k n
  induction n generalizing k with
  | zero => omega
  | succ n ih =>
    intro h1 h2
    show i ∈ k :: idxFrom (k + 1) n
    by_cases hk : i = k
    · rw [hk]
      exact List.mem_cons_self _ _
    · exact List.mem_cons_of_mem _ (ih (k + 1) (by omega) (by omega))

theorem mem_idx (n i : Nat) (h : i < n) : i ∈ idx n :=
  mem_idxFrom i 0 n (Nat.zero_le i) (by omega)

theorem set_external_summary_calls {TO TI SO SI : Type}
    [DecidableEq TO] [DecidableEq TI] [DecidableEq SO] [DecidableEq SI]
    (A : Alg TO TI SO SI) (fuel : Nat) (g : Subgraph TO TI SO SI)
    (summaries : List (List (List SO))) (frontier : List (List (TO × Int))) :
    (Subgraph.set_external_summary A fuel g summaries frontier).2 =
      (idx g.numScopes).map (fun j =>
        ChildCall.setExternalSummary j
          (childSummaries (seSumState A fuel g summaries frontier) j)
          (handedChanges
            (guaranteeStep A g.subscopeNotify
              (seSumState A fuel g summaries frontier).guarantees
              g.guarantee_changes
              (seSumState A fuel g summaries frontier).pointstamps.target_pushed j)
            (nth [] g.guarantee_changes j))) := rfl

/-- C9: non-notify children are skipped only for the guarantee folding
and the `push_external_progress` deliveries: `set_external_summary`
still calls `set_external_summary` on every child — handing a
non-notify child its stored guarantee-change row, which is empty under
the cleared-buffer invariant — and `pull_internal_progress` still calls
`pull_internal_progress` on every child, regardless of `notify_me()`. -/
theorem c9_notify_skips_only_guarantees {TO TI SO SI : Type}
    [DecidableEq TO] [DecidableEq TI] [DecidableEq SO] [DecidableEq SI]
    (A : Alg TO TI SO SI) (fuel : Nat) (g : Subgraph TO TI SO SI)
    (summaries : List (List (List SO))) (frontier : List (List (TO × Int)))
    (deposits : Nat → List (List ((TO × TI) × Int)) × List (List ((TO × TI) × Int)) ×
      List (List ((TO × TI) × Int)))
    (fp mc mp : List (List (TO × Int)))
    (HG : AllNil2 g.guarantee_changes)
    (i : Nat) (hi : i < g.numScopes) :
    (∃ sm ch, ChildCall.setExternalSummary i sm ch ∈
        (Subgraph.set_external_summary A fuel g summaries frontier).2 ∧
      (nth false g.subscopeNotify i = false → AllNil1 ch)) ∧
    ChildCall.pullInternalProgress i ∈
      (Subgraph.pull_internal_progress A g deposits fp mc mp).calls := by
  constructor
  · rw [set_external_summary_calls]
    refine ⟨_, _, List.mem_map_of_mem _ (mem_idx g.numScopes i hi), ?_⟩
    intro hnot
    rw [guaranteeStep_not A _ _ _ _ i hnot]
    exact nth_entries_ok (fun b => b = []) g.guarantee_changes HG i
  · refine List.mem_append_left _ ?_
    rw [pullStep2_trace]
    exact List.mem_map_of_mem _ (mem_idx g.numScopes i hi)

/-- C9 witness: the single (notify) child of the concrete subgraph
receives both calls. -/
theorem c9_witness :
    (∃ sm ch, ChildCall.setExternalSummary 0 sm ch ∈
        (Subgraph.set_external_summary natAlg 0 c4Example [] []).2 ∧
      (nth false c4Example.subscopeNotify 0 = false → AllNil1 ch)) ∧
    ChildCall.pullInternalProgress 0 ∈
      (Subgraph.pull_internal_progress natAlg c4Example c10Dep [] [] []).calls :=
  c9_notify_skips_only_guarantees natAlg 0 c4Example [] [] c10Dep [] [] []
    (by decide) 0 (by decide)

/-- C10: `messages_consumed` and `messages_produced` are filled by raw
appends — the concrete childless run deposits two entries with the same
outer time `5` in each — while `frontier_progress` buckets are coalesced
via `CountMap::update`, which keeps their keys pairwise distinct. -/
theorem c10_raw_appends_coalesced_frontier {TO TI SO SI : Type}
    [DecidableEq TO] [DecidableEq TI]
    (A : Alg TO TI SO SI) (g : Subgraph TO TI SO SI)
    (deposits : Nat → List (List ((TO × TI) × Int)) × List (List ((TO × TI) × Int)) ×
      List (List ((TO × TI) × Int)))
    (fp mc mp : List (List (TO × Int)))
    (hfp : ∀ b ∈ fp, cmKeysNodup b) :
    ((Subgraph.pull_internal_progress natAlg c10Example c10Dep
        [[]] [[]] [[]]).messages_consumed = [[((5 : Nat), (1 : Int)), (5, 1)]] ∧
      (Subgraph.pull_internal_progress natAlg c10Example c10Dep
        [[]] [[]] [[]]).messages_produced = [[((5 : Nat), (1 : Int)), (5, 1)]]) ∧
    ∀ b ∈ (Subgraph.pull_internal_progress A g deposits fp mc mp).frontier_progress,
      cmKeysNodup b := by
  refine ⟨⟨?_, ?_⟩, ?_⟩
  · decide
  · decide
  · intro b hb
    exact pullStep4_nodup A _ fp hfp b hb

/-- C10 witness: the duplicate-entry run together with key-distinctness
of the frontier buckets at a concrete nonempty `frontier_progress`. -/
theorem c10_witness :
    (∀ b ∈ [[((3 : Nat), (1 : Int))]], cmKeysNodup b) ∧
    (((Subgraph.pull_internal_progress natAlg c10Example c10Dep
        [[]] [[]] [[]]).messages_consumed = [[((5 : Nat), (1 : Int)), (5, 1)]] ∧
      (Subgraph.pull_internal_progress natAlg c10Example c10Dep
        [[]] [[]] [[]]).messages_produced = [[((5 : Nat), (1 : Int)), (5, 1)]]) ∧
    ∀ b ∈ (Subgraph.pull_internal_progress natAlg emptySubgraph c10Dep
        [[(3, 1)]] [] []).frontier_progress, cmKeysNodup b) :=
  ⟨by decide, c10_raw_appends_coalesced_frontier natAlg emptySubgraph c10Dep
    [[(3, 1)]] [] [] (by decide)⟩

end Timely
